import Mathlib

/-!
# chipEmu: a shallow embedding of the interpreter core

The C program keeps the machine in global variables
(`include/chip/chip_specifications.h`); here they are the fields of one record
that every operation takes and returns.

Conventions of the embedding

* `uint8` and `uint16` values are natural numbers; every store that can leave
  the range of its C type is reduced modulo `2^8` or `2^16` explicitly.
  `Chip.WF` collects the ranges the C types guarantee.
* C arrays are total functions from the index.  C gives no meaning to an
  access outside the declared bounds; the statements about one instruction
  carry the bound as a hypothesis wherever such an access is possible, and the
  statements over every opcode or over runs of the machine (stack pointer,
  display bits) carry `accessOK` or `stepOK`, which say that every array
  access of the instruction is inside its bounds.
* `for` loops are `forUpTo`; loops left early by `break` or `return` are
  recursions on the number of iterations that remain.
-/

namespace ChipEmu

/-! ## Machine state -/

/-- The globals of `chip_specifications.h`, together with `key_prev`, the
keypad snapshot that `LD5` reads and the host loop of `main.c` writes. -/
structure Chip where
  memory : Nat → Nat
  stack : Nat → Nat
  V : Nat → Nat
  PC : Nat
  SP : Nat
  I : Nat
  delay_timer : Nat
  sound_timer : Nat
  display : Nat → Nat → Nat
  key_state : Nat → Nat
  key_prev : Nat → Nat
  next : Nat

/-- Ranges that the C types of the globals guarantee. -/
structure Chip.WF (s : Chip) : Prop where
  memory_lt : ∀ i, s.memory i < 256
  stack_lt : ∀ i, s.stack i < 65536
  V_lt : ∀ i, s.V i < 256
  PC_lt : s.PC < 65536
  SP_lt : s.SP < 256
  I_lt : s.I < 65536
  delay_lt : s.delay_timer < 256
  sound_lt : s.sound_timer < 256
  display_lt : ∀ r c, s.display r c < 256
  key_state_lt : ∀ i, s.key_state i < 256
  key_prev_lt : ∀ i, s.key_prev i < 256
  next_lt : s.next < 256

/-! ## Helpers for arrays, loops and machine arithmetic -/

/-- Array store `a[i] = v`. -/
def setAt {α : Type} (a : Nat → α) (i : Nat) (v : α) : Nat → α :=
  fun j => if j = i then v else a j

/-- Two-dimensional array store `a[r][c] = v`. -/
def setAt2 {α : Type} (a : Nat → Nat → α) (r c : Nat) (v : α) : Nat → Nat → α :=
  fun i j => if i = r ∧ j = c then v else a i j

/-- The loop `for (i = 0; i < n; i++) body(i)`. -/
def forUpTo {σ : Type} (n : Nat) (body : Nat → σ → σ) (s : σ) : σ :=
  match n with
  | 0 => s
  | k + 1 => body k (forUpTo k body s)

/-- Result of `a - b` computed in `int` and stored into a `uint8`. -/
def sub8 (a b : Nat) : Nat := (((a : Int) - (b : Int)) % 256).toNat

/-- Result of `a - b` computed in `int` and stored into a `uint16`. -/
def sub16 (a b : Nat) : Nat := (((a : Int) - (b : Int)) % 65536).toNat

/-! ## Initialisation (`chip.c`) -/

/-- The array `default_font` of `util_chip_init`. -/
def default_font : List Nat :=
  [0xF0, 0x90, 0x90, 0x90, 0xF0,
   0x20, 0x60, 0x20, 0x20, 0x70,
   0xF0, 0x10, 0xF0, 0x80, 0xF0,
   0xF0, 0x10, 0xF0, 0x10, 0xF0,
   0x90, 0x90, 0xF0, 0x10, 0x10,
   0xF0, 0x80, 0xF0, 0x10, 0xF0,
   0xF0, 0x80, 0xF0, 0x90, 0xF0,
   0xF0, 0x10, 0x20, 0x40, 0x40,
   0xF0, 0x90, 0xF0, 0x90, 0xF0,
   0xF0, 0x90, 0xF0, 0x10, 0xF0,
   0xF0, 0x90, 0xF0, 0x90, 0x90,
   0xE0, 0x90, 0xE0, 0x90, 0xE0,
   0xF0, 0x80, 0x80, 0x90, 0xF0,
   0xE0, 0x90, 0x90, 0x90, 0xE0,
   0xF0, 0x80, 0xF0, 0x80, 0xF0,
   0xF0, 0x80, 0xF0, 0x80, 0x80]

/-- The customary hexadecimal font of the instruction set, glyph by glyph:
five rows per digit, the four high bits of a row are its pixels.  This is the
table the specification calls canonical; it is written down independently of
`default_font`, to be compared with it. -/
def canonical_glyph : Nat → List Nat
  | 0x0 => [0xF0, 0x90, 0x90, 0x90, 0xF0]
  | 0x1 => [0x20, 0x60, 0x20, 0x20, 0x70]
  | 0x2 => [0xF0, 0x10, 0xF0, 0x80, 0xF0]
  | 0x3 => [0xF0, 0x10, 0xF0, 0x10, 0xF0]
  | 0x4 => [0x90, 0x90, 0xF0, 0x10, 0x10]
  | 0x5 => [0xF0, 0x80, 0xF0, 0x10, 0xF0]
  | 0x6 => [0xF0, 0x80, 0xF0, 0x90, 0xF0]
  | 0x7 => [0xF0, 0x10, 0x20, 0x40, 0x40]
  | 0x8 => [0xF0, 0x90, 0xF0, 0x90, 0xF0]
  | 0x9 => [0xF0, 0x90, 0xF0, 0x10, 0xF0]
  | 0xA => [0xF0, 0x90, 0xF0, 0x90, 0x90]
  | 0xB => [0xE0, 0x90, 0xE0, 0x90, 0xE0]
  | 0xC => [0xF0, 0x80, 0x80, 0x80, 0xF0]
  | 0xD => [0xE0, 0x90, 0x90, 0x90, 0xE0]
  | 0xE => [0xF0, 0x80, 0xF0, 0x80, 0xF0]
  | 0xF => [0xF0, 0x80, 0xF0, 0x80, 0x80]
  | _ => []

/-- Embedding of `util_chip_init`; `t` is the value `time(0)` returns. -/
def util_chip_init (t : Int) (s : Chip) : Chip :=
  let s := forUpTo 0x1000 (fun i s => { s with memory := setAt s.memory i 0 }) s
  let s := forUpTo 0x10 (fun i s => { s with stack := setAt s.stack i 0 }) s
  let s := forUpTo 0x10 (fun i s => { s with V := setAt s.V i 0 }) s
  let s := { s with PC := 0x200 }
  let s := { s with SP := 0 }
  let s := { s with I := 0 }
  let s := { s with delay_timer := 0 }
  let s := { s with sound_timer := 0 }
  let s := forUpTo 0x20 (fun y s =>
    forUpTo 0x40 (fun x s => { s with display := setAt2 s.display y x 0 }) s) s
  let s := forUpTo 0x50 (fun i s =>
    { s with memory := setAt s.memory i (default_font.getD i 0) }) s
  let s := forUpTo 16 (fun i s => { s with key_state := setAt s.key_state i 0 }) s
  { s with next := (t % 256).toNat }

/-! ## Instructions (`chip_instructions.c`) -/

/-- Opcode 0nnn. -/
def SYS (addr : Nat) (s : Chip) : Chip := { s with PC := addr }

/-- Opcode 00E0. -/
def CLS (s : Chip) : Chip :=
  forUpTo 32 (fun i s =>
    forUpTo 64 (fun j s => { s with display := setAt2 s.display i j 0 }) s) s

/-- Opcode 00EE: `PC = stack[SP--]`. -/
def RET (s : Chip) : Chip := { s with PC := s.stack s.SP, SP := sub8 s.SP 1 }

/-- Opcode 1nnn. -/
def JP (addr : Nat) (s : Chip) : Chip := { s with PC := addr }

/-- Opcode 2nnn: `stack[++SP] = PC; PC = addr`. -/
def CALL (addr : Nat) (s : Chip) : Chip :=
  let sp := (s.SP + 1) % 256
  { s with SP := sp, stack := setAt s.stack sp s.PC, PC := addr }

/-- Opcode 3xkk. -/
def SE (reg val : Nat) (s : Chip) : Chip :=
  if s.V reg = val then { s with PC := (s.PC + 2) % 65536 } else s

/-- Opcode 4xkk. -/
def SNE (reg val : Nat) (s : Chip) : Chip :=
  if s.V reg ≠ val then { s with PC := (s.PC + 2) % 65536 } else s

/-- Opcode 5xy0. -/
def SE2 (regX regY : Nat) (s : Chip) : Chip :=
  if s.V regX = s.V regY then { s with PC := (s.PC + 2) % 65536 } else s

/-- Opcode 6xkk. -/
def LD (reg val : Nat) (s : Chip) : Chip := { s with V := setAt s.V reg val }

/-- Opcode 7xkk. -/
def ADD (reg val : Nat) (s : Chip) : Chip :=
  { s with V := setAt s.V reg ((s.V reg + val) % 256) }

/-- Opcode 8xy0. -/
def LD2 (regX regY : Nat) (s : Chip) : Chip :=
  { s with V := setAt s.V regX (s.V regY) }

/-- Opcode 8xy1. -/
def OR (regX regY : Nat) (s : Chip) : Chip :=
  let s := { s with V := setAt s.V regX (s.V regX ||| s.V regY) }
  { s with V := setAt s.V 0xF 0 }

/-- Opcode 8xy2. -/
def AND (regX regY : Nat) (s : Chip) : Chip :=
  let s := { s with V := setAt s.V regX (s.V regX &&& s.V regY) }
  { s with V := setAt s.V 0xF 0 }

/-- Opcode 8xy3. -/
def XOR (regX regY : Nat) (s : Chip) : Chip :=
  let s := { s with V := setAt s.V regX (s.V regX ^^^ s.V regY) }
  { s with V := setAt s.V 0xF 0 }

/-- Opcode 8xy4. -/
def ADD2 (regX regY : Nat) (s : Chip) : Chip :=
  let overflow := if s.V regX + s.V regY > 255 then 1 else 0
  let s := { s with V := setAt s.V regX ((s.V regX + s.V regY) % 256) }
  { s with V := setAt s.V 0xF overflow }

/-- Opcode 8xy5. -/
def SUB (regX regY : Nat) (s : Chip) : Chip :=
  let underflow := if s.V regX > s.V regY then 1 else 0
  let s := { s with V := setAt s.V regX (sub8 (s.V regX) (s.V regY)) }
  { s with V := setAt s.V 0xF underflow }

/-- Opcode 8xy6. -/
def SHR (regX regY : Nat) (s : Chip) : Chip :=
  let lsb := if s.V regY &&& 0x01 ≠ 0 then 1 else 0
  let s := { s with V := setAt s.V regX (s.V regY >>> 1) }
  { s with V := setAt s.V 0xF lsb }

/-- Opcode 8xy7. -/
def SUBN (regX regY : Nat) (s : Chip) : Chip :=
  let not_borrow := if s.V regY > s.V regX then 1 else 0
  let s := { s with V := setAt s.V regX (sub8 (s.V regY) (s.V regX)) }
  { s with V := setAt s.V 0xF not_borrow }

/-- Opcode 8xyE. -/
def SHL (regX regY : Nat) (s : Chip) : Chip :=
  let msb := if s.V regY &&& 0x80 ≠ 0 then 1 else 0
  let s := { s with V := setAt s.V regX ((s.V regY <<< 1) % 256) }
  { s with V := setAt s.V 0xF msb }

/-- Opcode 9xy0. -/
def SNE2 (regX regY : Nat) (s : Chip) : Chip :=
  if s.V regX ≠ s.V regY then { s with PC := (s.PC + 2) % 65536 } else s

/-- Opcode Annn. -/
def LD3 (addr : Nat) (s : Chip) : Chip := { s with I := addr }

/-- Opcode Bnnn. -/
def JP2 (addr : Nat) (s : Chip) : Chip := { s with PC := (addr + s.V 0x0) % 65536 }

/-- Opcode Cxkk. -/
def RND (reg val : Nat) (s : Chip) : Chip :=
  let s := { s with next := (s.next * 4097 + 127) % 256 }
  { s with V := setAt s.V reg ((s.next % 0x100) &&& val) }

/-- Body of the inner loop of `DRW` once the clipping test has passed. -/
def DRW_pixel (vx vy y row x : Nat) (s : Chip) : Chip :=
  let pixel := (row &&& (1 <<< (7 - x))) >>> (7 - x)
  let s := if s.display (vy + y) (vx + x) ≠ 0 ∧ pixel ≠ 0
    then { s with V := setAt s.V 0xF 1 } else s
  { s with
    display := setAt2 s.display (vy + y) (vx + x) (s.display (vy + y) (vx + x) ^^^ pixel) }

/-- Inner loop of `DRW`, `for (x = ...; x < 8; x++)`, entered at column `x`
with `k` iterations left; the clipping test leaves it by `break`. -/
def DRW_cols (vx vy y row : Nat) : Nat → Nat → Chip → Chip
  | 0, _, s => s
  | k + 1, x, s =>
    if vx + x > 63 ∨ vy + y > 31 then s
    else DRW_cols vx vy y row k (x + 1) (DRW_pixel vx vy y row x s)

/-- Opcode Dxyn. -/
def DRW (regX regY n : Nat) (s : Chip) : Chip :=
  if s.V regX > 63 ∨ s.V regY > 32 then s
  else
    let vx := s.V regX % 64
    let vy := s.V regY % 32
    let s := { s with V := setAt s.V 0xF 0 }
    forUpTo n (fun y s => DRW_cols vx vy y (s.memory (s.I + y)) 8 0 s) s

/-- Opcode Ex9E. -/
def SKP (reg : Nat) (s : Chip) : Chip :=
  if s.key_state (s.V reg) ≠ 0 then { s with PC := (s.PC + 2) % 65536 } else s

/-- Opcode ExA1. -/
def SKNP (reg : Nat) (s : Chip) : Chip :=
  if s.key_state (s.V reg) = 0 then { s with PC := (s.PC + 2) % 65536 } else s

/-- Opcode Fx07. -/
def LD4 (reg : Nat) (s : Chip) : Chip := { s with V := setAt s.V reg s.delay_timer }

/-- Key scan of `LD5`, `for (i = ...; i < 16; i++)`, entered at key `i` with
`k` iterations left; a rising edge leaves the function by `return`, and the
statement after the loop is `PC -= 2`. -/
def LD5_scan (reg : Nat) : Nat → Nat → Chip → Chip
  | 0, _, s => { s with PC := sub16 s.PC 2 }
  | k + 1, i, s =>
    if s.key_state i ≠ 0 ∧ s.key_prev i = 0 then { s with V := setAt s.V reg i }
    else LD5_scan reg k (i + 1) s

/-- Opcode Fx0A. -/
def LD5 (reg : Nat) (s : Chip) : Chip :=
  LD5_scan reg 16 0 { s with V := setAt s.V reg 0 }

/-- Opcode Fx15. -/
def LDDT (reg : Nat) (s : Chip) : Chip := { s with delay_timer := s.V reg }

/-- Opcode Fx18. -/
def LDST (reg : Nat) (s : Chip) : Chip := { s with sound_timer := s.V reg }

/-- Opcode Fx1E. -/
def ADDI (reg : Nat) (s : Chip) : Chip := { s with I := (s.I + s.V reg) % 65536 }

/-- Opcode Fx29. -/
def LDF (reg : Nat) (s : Chip) : Chip := { s with I := (s.V reg * 5) % 65536 }

/-- Opcode Fx33. -/
def LDB (reg : Nat) (s : Chip) : Chip :=
  let s := { s with memory := setAt s.memory s.I (s.V reg / 100) }
  let s := { s with memory := setAt s.memory (s.I + 1) ((s.V reg % 100) / 10) }
  { s with memory := setAt s.memory (s.I + 2) (s.V reg % 10) }

/-- Opcode Fx55: the loop runs for `i = 0 .. reg` inclusive. -/
def LDI (reg : Nat) (s : Chip) : Chip :=
  forUpTo (reg + 1) (fun i s =>
    let s := { s with memory := setAt s.memory s.I (s.V i) }
    { s with I := (s.I + 1) % 65536 }) s

/-- Opcode Fx65: the loop runs for `i = 0 .. reg` inclusive. -/
def LD6 (reg : Nat) (s : Chip) : Chip :=
  forUpTo (reg + 1) (fun i s =>
    let s := { s with V := setAt s.V i (s.memory s.I) }
    { s with I := (s.I + 1) % 65536 }) s

/-! ## Decoder and dispatcher (`chip.c`, `main.c`) -/

/-- Embedding of `util_chip_execute`: the pre-advance `PC += 2`, then the
nested `switch` on the opcode fields. -/
def util_chip_execute (opcode : Nat) (s : Chip) : Chip :=
  let s := { s with PC := (s.PC + 2) % 65536 }
  let fam := (opcode &&& 0xF000) >>> 12
  let nnn := opcode &&& 0x0FFF
  let x := (opcode &&& 0x0F00) >>> 8
  let y := (opcode &&& 0x00F0) >>> 4
  let kk := opcode &&& 0x00FF
  let n := opcode &&& 0x000F
  if fam = 0x0 then
    if nnn = 0x0E0 then CLS s
    else if nnn = 0x0EE then RET s
    else SYS nnn s
  else if fam = 0x1 then JP nnn s
  else if fam = 0x2 then CALL nnn s
  else if fam = 0x3 then SE x kk s
  else if fam = 0x4 then SNE x kk s
  else if fam = 0x5 then
    if n = 0 then SE2 x y s else s
  else if fam = 0x6 then LD x kk s
  else if fam = 0x7 then ADD x kk s
  else if fam = 0x8 then
    if n = 0x0 then LD2 x y s
    else if n = 0x1 then OR x y s
    else if n = 0x2 then AND x y s
    else if n = 0x3 then XOR x y s
    else if n = 0x4 then ADD2 x y s
    else if n = 0x5 then SUB x y s
    else if n = 0x6 then SHR x y s
    else if n = 0x7 then SUBN x y s
    else if n = 0xE then SHL x y s
    else s
  else if fam = 0x9 then
    if n = 0 then SNE2 x y s else s
  else if fam = 0xA then LD3 nnn s
  else if fam = 0xB then JP2 nnn s
  else if fam = 0xC then RND x kk s
  else if fam = 0xD then DRW x y n s
  else if fam = 0xE then
    if kk = 0x9E then SKP x s
    else if kk = 0xA1 then SKNP x s
    else s
  else if fam = 0xF then
    if kk = 0x07 then LD4 x s
    else if kk = 0x0A then LD5 x s
    else if kk = 0x15 then LDDT x s
    else if kk = 0x18 then LDST x s
    else if kk = 0x1E then ADDI x s
    else if kk = 0x29 then LDF x s
    else if kk = 0x33 then LDB x s
    else if kk = 0x55 then LDI x s
    else if kk = 0x65 then LD6 x s
    else s
  else s

/-- Fetch of `main.c`: `op_code = (memory[PC] << 8) + memory[PC + 1]`. -/
def fetch (s : Chip) : Nat := ((s.memory s.PC <<< 8) + s.memory (s.PC + 1)) % 65536

/-- One turn of the fetch-execute loop of `main.c`. -/
def step (s : Chip) : Chip := util_chip_execute (fetch s) s

/-! ## Vocabulary of the statements about `DRW` -/

/-- Bit `k` of the number `b` (bit 0 is the least significant). -/
def bitOf (b k : Nat) : Nat := b / 2 ^ k % 2

/-- The state in which `DRW` enters its inner-loop body for the sprite pixel
in row `y`, column `x`, when that pixel is inside the grid: rows `0 .. y-1`
are done and so are columns `0 .. x-1` of row `y`. -/
def DRW_before (regX regY y x : Nat) (s : Chip) : Chip :=
  let vx := s.V regX % 64
  let vy := s.V regY % 32
  let s := { s with V := setAt s.V 0xF 0 }
  let s := forUpTo y (fun y s => DRW_cols vx vy y (s.memory (s.I + y)) 8 0 s) s
  DRW_cols vx vy y (s.memory (s.I + y)) x 0 s

/-! ## Concrete states used to evaluate the embedding -/

/-- The machine with every component zero. -/
def zeroChip : Chip :=
  { memory := fun _ => 0, stack := fun _ => 0, V := fun _ => 0, PC := 0, SP := 0, I := 0,
    delay_timer := 0, sound_timer := 0, display := fun _ _ => 0, key_state := fun _ => 0,
    key_prev := fun _ => 0, next := 0 }

/-- A machine at the program start with V0 = `a`, V1 = `b`, VF = `f`. -/
def regChip (a b f : Nat) : Chip :=
  { zeroChip with PC := 0x200, V := setAt (setAt (setAt zeroChip.V 0x0 a) 0x1 b) 0xF f }

/-- A machine about to draw: V0 = `vx`, V1 = `vy`, I = 0x300, the byte `row`
at memory[0x300], and a blank display. -/
def spriteChip (vx vy row : Nat) : Chip :=
  { zeroChip with
    PC := 0x200
    I := 0x300
    V := setAt (setAt zeroChip.V 0x0 vx) 0x1 vy
    memory := setAt zeroChip.memory 0x300 row }

/-- The machine `spriteChip 0 0 0x80` with the display cell (0, 0) already on. -/
def litChip : Chip :=
  { spriteChip 0 0 0x80 with display := setAt2 zeroChip.display 0 0 1 }

/-! ## Host side: timers, keypad, loader (`main.c`, `chip.c`) -/

/-- The timer update of the frame loop of `main.c`:
`if (delay_timer > 0) delay_timer--; if (sound_timer > 0) sound_timer--;`. -/
def timer_tick (s : Chip) : Chip :=
  let s := if s.delay_timer > 0 then { s with delay_timer := sub8 s.delay_timer 1 } else s
  if s.sound_timer > 0 then { s with sound_timer := sub8 s.sound_timer 1 } else s

/-- Embedding of `util_chip_load_ROM`.  The file system is the argument `file`:
`none` when `fopen` fails, otherwise the bytes of the file.  `fread` is asked
for one element of `sizeof(memory)` = 0x1000 bytes at `memory + 0x200`, so it
stores the first 0x1000 bytes of the file, or all of them when there are fewer.
The result is the return value paired with the new state. -/
def util_chip_load_ROM (file : Option (List Nat)) (s : Chip) : Nat × Chip :=
  match file with
  | none => (1, s)
  | some bytes =>
    (0, forUpTo (min bytes.length 0x1000) (fun i s =>
      { s with memory := setAt s.memory (0x200 + i) (bytes.getD i 0) }) s)

/-- Embedding of `util_chip_reset` of `main.c`: `util_chip_init`, then
`util_chip_load_ROM` on the selected file (`rom_file` is the buffer allocated
at start-up, so its null test does not fire).  A file of more than 0xE00 bytes
makes the load store past the end of `memory`; the embedding records those
bytes at indices from 0x1000 on and says nothing of what they overwrite in C,
so the statements about runs from a reset bound the file by 0xE00 bytes. -/
def util_chip_reset (t : Int) (file : Option (List Nat)) (s : Chip) : Nat × Chip :=
  util_chip_load_ROM file (util_chip_init t s)

/-- The host writes the keypad arrays: `key_state` from its input events and
`key_prev` at the end of a frame. -/
def setKeys (keys : (Nat → Nat) × (Nat → Nat)) (s : Chip) : Chip :=
  { s with key_state := keys.1, key_prev := keys.2 }

/-- A run of the machine in which the host sets the keypad arrays before each
turn of the fetch-execute loop. -/
def runWithKeys : List ((Nat → Nat) × (Nat → Nat)) → Chip → Chip
  | [], s => s
  | keys :: rest, s => runWithKeys rest (step (setKeys keys s))

/-! ## Vocabulary of the statements about the keypad, the dispatcher and the stack -/

/-- Key `k` has a rising edge: held now, not held in the previous snapshot
(the test `key_state[i] && !key_prev[i]` of `LD5`). -/
def risingEdge (s : Chip) (k : Nat) : Prop := s.key_state k ≠ 0 ∧ s.key_prev k = 0

instance (s : Chip) (k : Nat) : Decidable (risingEdge s k) := by
  unfold risingEdge
  infer_instance

/-- Opcodes whose sub-opcode no `case` of its family lists: 5xyN and 9xyN with
N other than 0, 8xyN with N in 8, 9, A, B, C, D, F, ExNN with NN other than 9E
and A1, FxNN with NN other than 07, 0A, 15, 18, 1E, 29, 33, 55, 65. -/
def unrecognised (op : Nat) : Prop :=
  (op / 4096 % 16 = 0x5 ∧ op % 16 ≠ 0) ∨
  (op / 4096 % 16 = 0x9 ∧ op % 16 ≠ 0) ∨
  (op / 4096 % 16 = 0x8 ∧ (op % 16 = 0x8 ∨ op % 16 = 0x9 ∨ op % 16 = 0xA ∨ op % 16 = 0xB ∨
    op % 16 = 0xC ∨ op % 16 = 0xD ∨ op % 16 = 0xF)) ∨
  (op / 4096 % 16 = 0xE ∧ op % 256 ≠ 0x9E ∧ op % 256 ≠ 0xA1) ∨
  (op / 4096 % 16 = 0xF ∧ op % 256 ≠ 0x07 ∧ op % 256 ≠ 0x0A ∧ op % 256 ≠ 0x15 ∧
    op % 256 ≠ 0x18 ∧ op % 256 ≠ 0x1E ∧ op % 256 ≠ 0x29 ∧ op % 256 ≠ 0x33 ∧
    op % 256 ≠ 0x55 ∧ op % 256 ≠ 0x65)

instance (op : Nat) : Decidable (unrecognised op) := by
  unfold unrecognised
  infer_instance

/-- The opcode is a call, 2nnn. -/
def isCall (op : Nat) : Prop := op / 4096 % 16 = 0x2

/-- The opcode is the return, 00EE. -/
def isReturn (op : Nat) : Prop := op / 4096 % 16 = 0x0 ∧ op % 4096 = 0x0EE

instance (op : Nat) : Decidable (isCall op) := by
  unfold isCall
  infer_instance

instance (op : Nat) : Decidable (isReturn op) := by
  unfold isReturn
  infer_instance

/-- A machine waiting for a key: the opcode F00A at PC = 0x200, V0 = `v`,
`key_state` and `key_prev` as given. -/
def waitChip (v : Nat) (ks kp : Nat → Nat) : Chip :=
  { zeroChip with
    PC := 0x200
    V := setAt zeroChip.V 0x0 v
    memory := setAt (setAt zeroChip.memory 0x200 0xF0) 0x201 0x0A
    key_state := ks
    key_prev := kp }

/-- A machine whose delay timer holds `d` and whose sound timer holds `t`. -/
def timerChip (d t : Nat) : Chip :=
  { zeroChip with PC := 0x200, delay_timer := d, sound_timer := t }

/-- Every array access that `util_chip_execute` makes for the opcode `op` in
the state `s` lies inside the declared bounds of its array.  Register indices
are opcode nibbles or constants and the display indices of `DRW` pass its
clipping test, so the accesses that can leave their array are: `stack[SP]` in
`RET`, `stack[++SP]` in `CALL`, `memory[I + y]` for `y < n` in a `DRW` that is
not rejected, `key_state[V[reg]]` in `SKP` and `SKNP`, `memory[I .. I + 2]` in
`LDB`, and `memory[I .. I + reg]` in `LDI` and `LD6`.  Outside these bounds C
defines no result. -/
def accessOK (op : Nat) (s : Chip) : Prop :=
  (isReturn op → s.SP < 0x10) ∧
  (isCall op → (s.SP + 1) % 256 < 0x10) ∧
  (op / 4096 % 16 = 0xD → ¬ (s.V (op / 256 % 16) > 63 ∨ s.V (op / 16 % 16) > 32) →
    op % 16 ≠ 0 → s.I + op % 16 ≤ 0x1000) ∧
  (op / 4096 % 16 = 0xE → (op % 256 = 0x9E ∨ op % 256 = 0xA1) → s.V (op / 256 % 16) < 0x10) ∧
  (op / 4096 % 16 = 0xF → op % 256 = 0x33 → s.I + 2 < 0x1000) ∧
  (op / 4096 % 16 = 0xF → (op % 256 = 0x55 ∨ op % 256 = 0x65) →
    s.I + op / 256 % 16 < 0x1000)

instance (op : Nat) (s : Chip) : Decidable (accessOK op s) := by
  unfold accessOK
  infer_instance

/-- One turn of the fetch-execute loop stays inside the arrays: the two bytes
of the opcode are read inside `memory`, and so is every access of the
instruction. -/
def stepOK (s : Chip) : Prop := s.PC + 1 < 0x1000 ∧ accessOK (fetch s) s

instance (s : Chip) : Decidable (stepOK s) := by
  unfold stepOK
  infer_instance

/-- The all-zero machine, except that the previous-keypad snapshot has key 0
held. -/
def staleChip : Chip := { zeroChip with key_prev := setAt zeroChip.key_prev 0 1 }

/-! ## Array and loop lemmas -/

@[simp] theorem setAt_same {α : Type} (a : Nat → α) (i : Nat) (v : α) :
    setAt a i v i = v := by
  simp [setAt]

@[simp] theorem setAt_other {α : Type} (a : Nat → α) (i j : Nat) (v : α) (h : j ≠ i) :
    setAt a i v j = a j := by
  simp [setAt, h]

theorem setAt_apply {α : Type} (a : Nat → α) (i j : Nat) (v : α) :
    setAt a i v j = if j = i then v else a j := rfl

theorem setAt2_apply {α : Type} (a : Nat → Nat → α) (r c i j : Nat) (v : α) :
    setAt2 a r c v i j = if i = r ∧ j = c then v else a i j := rfl

theorem forUpTo_zero {σ : Type} (body : Nat → σ → σ) (s : σ) : forUpTo 0 body s = s := rfl

theorem forUpTo_succ {σ : Type} (k : Nat) (body : Nat → σ → σ) (s : σ) :
    forUpTo (k + 1) body s = body k (forUpTo k body s) := rfl

/-- A loop storing `g i` into `memory[i]` for `i < n`. -/
theorem forUpTo_memory (g : Nat → Nat) (n : Nat) (s : Chip) :
    forUpTo n (fun i s => { s with memory := setAt s.memory i (g i) }) s
      = { s with memory := fun j => if j < n then g j else s.memory j } := by
  induction n with
  | zero => simp [forUpTo_zero]
  | succ k ih =>
    rw [forUpTo_succ, ih]
    simp only [Chip.mk.injEq, and_true, true_and]
    funext j
    simp only [setAt_apply]
    split_ifs <;> first | rfl | (subst j; rfl) | omega

/-- A loop storing `g i` into `stack[i]` for `i < n`. -/
theorem forUpTo_stack (g : Nat → Nat) (n : Nat) (s : Chip) :
    forUpTo n (fun i s => { s with stack := setAt s.stack i (g i) }) s
      = { s with stack := fun j => if j < n then g j else s.stack j } := by
  induction n with
  | zero => simp [forUpTo_zero]
  | succ k ih =>
    rw [forUpTo_succ, ih]
    simp only [Chip.mk.injEq, and_true, true_and]
    funext j
    simp only [setAt_apply]
    split_ifs <;> first | rfl | (subst j; rfl) | omega

/-- A loop storing `g i` into `V[i]` for `i < n`. -/
theorem forUpTo_V (g : Nat → Nat) (n : Nat) (s : Chip) :
    forUpTo n (fun i s => { s with V := setAt s.V i (g i) }) s
      = { s with V := fun j => if j < n then g j else s.V j } := by
  induction n with
  | zero => simp [forUpTo_zero]
  | succ k ih =>
    rw [forUpTo_succ, ih]
    simp only [Chip.mk.injEq, and_true, true_and]
    funext j
    simp only [setAt_apply]
    split_ifs <;> first | rfl | (subst j; rfl) | omega

/-- A loop storing `g i` into `key_state[i]` for `i < n`. -/
theorem forUpTo_key_state (g : Nat → Nat) (n : Nat) (s : Chip) :
    forUpTo n (fun i s => { s with key_state := setAt s.key_state i (g i) }) s
      = { s with key_state := fun j => if j < n then g j else s.key_state j } := by
  induction n with
  | zero => simp [forUpTo_zero]
  | succ k ih =>
    rw [forUpTo_succ, ih]
    simp only [Chip.mk.injEq, and_true, true_and]
    funext j
    simp only [setAt_apply]
    split_ifs <;> first | rfl | (subst j; rfl) | omega

/-- A loop storing `v` into `display[r][c]` for `c < m`. -/
theorem forUpTo_display_row (v r m : Nat) (s : Chip) :
    forUpTo m (fun c s => { s with display := setAt2 s.display r c v }) s
      = { s with display := fun i j => if i = r ∧ j < m then v else s.display i j } := by
  induction m with
  | zero => simp [forUpTo_zero]
  | succ k ih =>
    rw [forUpTo_succ, ih]
    simp only [Chip.mk.injEq, and_true, true_and]
    funext i j
    simp only [setAt2_apply]
    split_ifs <;> first | rfl | omega

/-- The nested loop storing `v` into `display[r][c]` for `r < n`, `c < m`. -/
theorem forUpTo_display (v n m : Nat) (s : Chip) :
    forUpTo n (fun r s =>
        forUpTo m (fun c s => { s with display := setAt2 s.display r c v }) s) s
      = { s with display := fun i j => if i < n ∧ j < m then v else s.display i j } := by
  induction n with
  | zero => simp [forUpTo_zero]
  | succ k ih =>
    rw [forUpTo_succ, ih, forUpTo_display_row]
    simp only [Chip.mk.injEq, and_true, true_and]
    funext i j
    split_ifs <;> first | rfl | omega

/-! ## Initialisation -/

/-- The state `util_chip_init` leaves, in closed form. -/
theorem util_chip_init_eq (t : Int) (s : Chip) :
    util_chip_init t s =
      { memory := fun j => if j < 0x50 then default_font.getD j 0
          else if j < 0x1000 then 0 else s.memory j
        stack := fun j => if j < 0x10 then 0 else s.stack j
        V := fun j => if j < 0x10 then 0 else s.V j
        PC := 0x200
        SP := 0
        I := 0
        delay_timer := 0
        sound_timer := 0
        display := fun i j => if i < 0x20 ∧ j < 0x40 then 0 else s.display i j
        key_state := fun j => if j < 16 then 0 else s.key_state j
        key_prev := s.key_prev
        next := (t % 256).toNat } := by
  unfold util_chip_init
  simp only [forUpTo_memory (fun _ => 0), forUpTo_stack (fun _ => 0), forUpTo_V (fun _ => 0),
    forUpTo_key_state (fun _ => 0), forUpTo_display,
    forUpTo_memory (fun i => default_font.getD i 0)]

/-- C1 (initial state).  After `util_chip_init`, from any prior state and any
clock value: PC = 0x200, SP = 0, I = 0, V0..VF = 0, both timers = 0, every
stack slot, display cell and key_state entry = 0, memory[0x050..0xFFF] = 0, and
memory[5d + j] is row j of the canonical glyph d everywhere except at address
0x3F (glyph C, row 3), where the code stores 0x90 and the canonical glyph has
0x80. -/
theorem util_chip_init_state (t : Int) (s : Chip) :
    (util_chip_init t s).PC = 0x200 ∧ (util_chip_init t s).SP = 0 ∧
    (util_chip_init t s).I = 0 ∧
    (∀ i, i < 16 → (util_chip_init t s).V i = 0) ∧
    (util_chip_init t s).delay_timer = 0 ∧ (util_chip_init t s).sound_timer = 0 ∧
    (∀ i, i < 16 → (util_chip_init t s).stack i = 0) ∧
    (∀ r c, r < 32 → c < 64 → (util_chip_init t s).display r c = 0) ∧
    (∀ i, i < 16 → (util_chip_init t s).key_state i = 0) ∧
    (∀ i, 0x50 ≤ i → i < 0x1000 → (util_chip_init t s).memory i = 0) ∧
    (∀ d j, d < 16 → j < 5 → 5 * d + j ≠ 0x3F →
      (util_chip_init t s).memory (5 * d + j) = (canonical_glyph d).getD j 0) ∧
    (util_chip_init t s).memory 0x3F = 0x90 ∧
    (canonical_glyph 0xC).getD 3 0 = 0x80 := by
  rw [util_chip_init_eq]
  refine ⟨rfl, rfl, rfl, ?_, rfl, rfl, ?_, ?_, ?_, ?_, ?_, ?_, ?_⟩
  · intro i hi
    simp [hi]
  · intro i hi
    simp [hi]
  · intro r c hr hc
    simp [hr, hc]
  · intro i hi
    simp [hi]
  · intro i h1 h2
    have h3 : ¬ i < 0x50 := by omega
    simp [h2, h3]
  · intro d j hd hj hne
    interval_cases d <;> interval_cases j <;>
      first | (exfalso; exact hne rfl) | rfl
  · rfl
  · rfl

/-! ## Decoding -/

theorem and_shiftRight (a b k : Nat) : (a &&& b) >>> k = (a >>> k) &&& (b >>> k) := by
  apply Nat.eq_of_testBit_eq
  intro i
  simp only [Nat.testBit_shiftRight, Nat.testBit_and]

theorem decode_fam (op : Nat) : (op &&& 0xF000) >>> 12 = op / 4096 % 16 := by
  rw [and_shiftRight, Nat.shiftRight_eq_div_pow]
  exact Nat.and_pow_two_sub_one_eq_mod _ 4

theorem decode_x (op : Nat) : (op &&& 0x0F00) >>> 8 = op / 256 % 16 := by
  rw [and_shiftRight, Nat.shiftRight_eq_div_pow]
  exact Nat.and_pow_two_sub_one_eq_mod _ 4

theorem decode_y (op : Nat) : (op &&& 0x00F0) >>> 4 = op / 16 % 16 := by
  rw [and_shiftRight, Nat.shiftRight_eq_div_pow]
  exact Nat.and_pow_two_sub_one_eq_mod _ 4

theorem decode_n (op : Nat) : op &&& 0x000F = op % 16 :=
  Nat.and_pow_two_sub_one_eq_mod _ 4

theorem decode_kk (op : Nat) : op &&& 0x00FF = op % 256 :=
  Nat.and_pow_two_sub_one_eq_mod _ 8

theorem decode_nnn (op : Nat) : op &&& 0x0FFF = op % 4096 :=
  Nat.and_pow_two_sub_one_eq_mod _ 12

/-- The dispatcher with the opcode fields written arithmetically. -/
theorem util_chip_execute_fields (op : Nat) (s : Chip) (fam nnn x y kk n : Nat)
    (hfam : op / 4096 % 16 = fam) (hnnn : op % 4096 = nnn) (hx : op / 256 % 16 = x)
    (hy : op / 16 % 16 = y) (hkk : op % 256 = kk) (hn : op % 16 = n) :
    util_chip_execute op s =
      (fun s : Chip =>
        if fam = 0x0 then
          if nnn = 0x0E0 then CLS s
          else if nnn = 0x0EE then RET s
          else SYS nnn s
        else if fam = 0x1 then JP nnn s
        else if fam = 0x2 then CALL nnn s
        else if fam = 0x3 then SE x kk s
        else if fam = 0x4 then SNE x kk s
        else if fam = 0x5 then
          if n = 0 then SE2 x y s else s
        else if fam = 0x6 then LD x kk s
        else if fam = 0x7 then ADD x kk s
        else if fam = 0x8 then
          if n = 0x0 then LD2 x y s
          else if n = 0x1 then OR x y s
          else if n = 0x2 then AND x y s
          else if n = 0x3 then XOR x y s
          else if n = 0x4 then ADD2 x y s
          else if n = 0x5 then SUB x y s
          else if n = 0x6 then SHR x y s
          else if n = 0x7 then SUBN x y s
          else if n = 0xE then SHL x y s
          else s
        else if fam = 0x9 then
          if n = 0 then SNE2 x y s else s
        else if fam = 0xA then LD3 nnn s
        else if fam = 0xB then JP2 nnn s
        else if fam = 0xC then RND x kk s
        else if fam = 0xD then DRW x y n s
        else if fam = 0xE then
          if kk = 0x9E then SKP x s
          else if kk = 0xA1 then SKNP x s
          else s
        else if fam = 0xF then
          if kk = 0x07 then LD4 x s
          else if kk = 0x0A then LD5 x s
          else if kk = 0x15 then LDDT x s
          else if kk = 0x18 then LDST x s
          else if kk = 0x1E then ADDI x s
          else if kk = 0x29 then LDF x s
          else if kk = 0x33 then LDB x s
          else if kk = 0x55 then LDI x s
          else if kk = 0x65 then LD6 x s
          else s
        else s) { s with PC := (s.PC + 2) % 65536 } := by
  subst hfam hnnn hx hy hkk hn
  simp only [util_chip_execute, decode_fam, decode_x, decode_y, decode_n, decode_kk, decode_nnn]

/-- Dispatch of 8xy4. -/
theorem util_chip_execute_8xy4 (x y : Nat) (hx : x < 16) (hy : y < 16) (s : Chip) :
    util_chip_execute (0x8004 + 256 * x + 16 * y) s
      = ADD2 x y { s with PC := (s.PC + 2) % 65536 } := by
  rw [util_chip_execute_fields _ s 8 ((0x8004 + 256 * x + 16 * y) % 4096) x y
    ((0x8004 + 256 * x + 16 * y) % 256) 4 (by omega) rfl (by omega) (by omega) rfl (by omega)]
  simp

/-- Dispatch of 8xy5. -/
theorem util_chip_execute_8xy5 (x y : Nat) (hx : x < 16) (hy : y < 16) (s : Chip) :
    util_chip_execute (0x8005 + 256 * x + 16 * y) s
      = SUB x y { s with PC := (s.PC + 2) % 65536 } := by
  rw [util_chip_execute_fields _ s 8 ((0x8005 + 256 * x + 16 * y) % 4096) x y
    ((0x8005 + 256 * x + 16 * y) % 256) 5 (by omega) rfl (by omega) (by omega) rfl (by omega)]
  simp

/-- Dispatch of 8xy7. -/
theorem util_chip_execute_8xy7 (x y : Nat) (hx : x < 16) (hy : y < 16) (s : Chip) :
    util_chip_execute (0x8007 + 256 * x + 16 * y) s
      = SUBN x y { s with PC := (s.PC + 2) % 65536 } := by
  rw [util_chip_execute_fields _ s 8 ((0x8007 + 256 * x + 16 * y) % 4096) x y
    ((0x8007 + 256 * x + 16 * y) % 256) 7 (by omega) rfl (by omega) (by omega) rfl (by omega)]
  simp

/-! ## Arithmetic instructions -/

theorem sub8_cast (a b : Nat) : ((sub8 a b : Nat) : Int) = ((a : Int) - (b : Int)) % 256 := by
  unfold sub8
  omega

/-- C8 (add-reg).  For x other than F, after 8xy4 Vx = (Vx + Vy) mod 256 and
VF = 1 if the unwrapped sum Vx + Vy exceeds 255, else 0. -/
theorem add_reg_spec (s : Chip) (x y : Nat) (hx : x < 16) (hy : y < 16) (hxF : x ≠ 0xF) :
    (util_chip_execute (0x8004 + 256 * x + 16 * y) s).V x = (s.V x + s.V y) % 256 ∧
    (util_chip_execute (0x8004 + 256 * x + 16 * y) s).V 0xF
      = if s.V x + s.V y > 255 then 1 else 0 := by
  rw [util_chip_execute_8xy4 x y hx hy]
  simp [ADD2, setAt_apply, hxF]

/-- Witness of C8 at the overflow boundary: V0 = 255, V1 = 1 gives V0 = 0, VF = 1. -/
theorem add_reg_spec_witness :
    (0 < 16 ∧ 1 < 16 ∧ 0 ≠ 0xF) ∧
    (util_chip_execute 0x8014 (regChip 255 1 0)).V 0 = 0 ∧
    (util_chip_execute 0x8014 (regChip 255 1 0)).V 0xF = 1 :=
  ⟨by decide, add_reg_spec (regChip 255 1 0) 0 1 (by decide) (by decide) (by decide)⟩

theorem regChip_WF (a b f : Nat) (ha : a < 256) (hb : b < 256) (hf : f < 256) :
    (regChip a b f).WF := by
  constructor <;> intros <;> simp only [regChip, zeroChip, setAt_apply] <;>
    first | omega | (split_ifs <;> omega)

/-- C9, as stated, fails when the destination is VF: with V0 = 0 and VF = 1,
opcode 8F04 (x = F, y = 0) leaves VF = 0, which is not the value VF had. -/
theorem add_reg_zero_counterexample :
    (regChip 0 0 1).WF ∧ (regChip 0 0 1).V 0 = 0 ∧
    ¬ ((util_chip_execute 0x8F04 (regChip 0 0 1)).V 0xF = (regChip 0 0 1).V 0xF ∧
       (util_chip_execute 0x8F04 (regChip 0 0 1)).V 0xF = 0) := by
  refine ⟨regChip_WF 0 0 1 (by decide) (by decide) (by decide), rfl, ?_⟩
  rw [show (0x8F04 : Nat) = 0x8004 + 256 * 15 + 16 * 0 from rfl,
    util_chip_execute_8xy4 15 0 (by decide) (by decide)]
  simp [ADD2, regChip, zeroChip, setAt_apply]

/-- C9 (add-reg with Vy = 0), amended.  For x, y in 0..15 with Vy = 0, after
8xy4 VF = 0, and Vx keeps its value whenever x is not F (for x = F the
destination is VF itself and the flag, written last, leaves it 0). -/
theorem add_reg_zero (s : Chip) (x y : Nat) (hs : s.WF) (hx : x < 16) (hy : y < 16)
    (h0 : s.V y = 0) :
    (util_chip_execute (0x8004 + 256 * x + 16 * y) s).V 0xF = 0 ∧
    (x ≠ 0xF → (util_chip_execute (0x8004 + 256 * x + 16 * y) s).V x = s.V x) := by
  have hV := hs.V_lt x
  rw [util_chip_execute_8xy4 x y hx hy]
  refine ⟨?_, ?_⟩
  · simp only [ADD2, setAt_same, h0, Nat.add_zero]
    rw [if_neg (by omega)]
  · intro hxF
    simp only [ADD2, setAt_apply, h0, Nat.add_zero, if_neg hxF, if_true]
    exact Nat.mod_eq_of_lt hV

/-- Witness of the amended C9: V0 = 7, V1 = 0, opcode 8014 leaves V0 = 7, VF = 0. -/
theorem add_reg_zero_witness :
    ((regChip 7 0 1).WF ∧ 0 < 16 ∧ 1 < 16 ∧ (regChip 7 0 1).V 1 = 0) ∧
    (util_chip_execute 0x8014 (regChip 7 0 1)).V 0xF = 0 ∧
    (0 ≠ 0xF → (util_chip_execute 0x8014 (regChip 7 0 1)).V 0 = 7) :=
  ⟨⟨regChip_WF 7 0 1 (by decide) (by decide) (by decide), by decide, by decide, rfl⟩,
    add_reg_zero (regChip 7 0 1) 0 1 (regChip_WF 7 0 1 (by decide) (by decide) (by decide))
      (by decide) (by decide) rfl⟩

/-- C10 (sub and subn).  For x other than F: after 8xy5, Vx = (Vx - Vy) mod 256
and VF = 1 if Vx > Vy strictly, else 0; after 8xy7, Vx = (Vy - Vx) mod 256 and
VF = 1 if Vy > Vx, else 0.  The differences are integer differences. -/
theorem sub_subn_spec (s : Chip) (x y : Nat) (hx : x < 16) (hy : y < 16) (hxF : x ≠ 0xF) :
    (((util_chip_execute (0x8005 + 256 * x + 16 * y) s).V x : Nat) : Int)
      = ((s.V x : Int) - (s.V y : Int)) % 256 ∧
    (util_chip_execute (0x8005 + 256 * x + 16 * y) s).V 0xF
      = (if s.V x > s.V y then 1 else 0) ∧
    (((util_chip_execute (0x8007 + 256 * x + 16 * y) s).V x : Nat) : Int)
      = ((s.V y : Int) - (s.V x : Int)) % 256 ∧
    (util_chip_execute (0x8007 + 256 * x + 16 * y) s).V 0xF
      = (if s.V y > s.V x then 1 else 0) := by
  rw [util_chip_execute_8xy5 x y hx hy, util_chip_execute_8xy7 x y hx hy]
  simp [SUB, SUBN, setAt_apply, hxF, sub8_cast]

/-- Witness of C10 at the borrow boundary: V0 = 0, V1 = 1, opcode 8015 gives
V0 = 255, VF = 0; opcode 8017 gives V0 = 1, VF = 1. -/
theorem sub_subn_spec_witness :
    (0 < 16 ∧ 1 < 16 ∧ 0 ≠ 0xF) ∧
    (((util_chip_execute 0x8015 (regChip 0 1 0)).V 0 : Nat) : Int) = 255 ∧
    (util_chip_execute 0x8015 (regChip 0 1 0)).V 0xF = 0 ∧
    (((util_chip_execute 0x8017 (regChip 0 1 0)).V 0 : Nat) : Int) = 1 ∧
    (util_chip_execute 0x8017 (regChip 0 1 0)).V 0xF = 1 :=
  ⟨by decide, sub_subn_spec (regChip 0 1 0) 0 1 (by decide) (by decide) (by decide)⟩

/-! ## Drawing -/

theorem pixel_eq_bitOf (row k : Nat) : (row &&& (1 <<< k)) >>> k = bitOf row k := by
  rw [and_shiftRight, Nat.one_shiftLeft, Nat.shiftRight_eq_div_pow (2 ^ k),
    Nat.div_self (by positivity), Nat.shiftRight_eq_div_pow]
  exact Nat.and_pow_two_sub_one_eq_mod _ 1

theorem bitOf_le_one (b k : Nat) : bitOf b k = 0 ∨ bitOf b k = 1 := by
  unfold bitOf
  omega

theorem DRW_pixel_eq (vx vy y row x : Nat) (s : Chip) :
    DRW_pixel vx vy y row x s =
      { s with
        V := if s.display (vy + y) (vx + x) ≠ 0 ∧ bitOf row (7 - x) ≠ 0
          then setAt s.V 0xF 1 else s.V
        display := setAt2 s.display (vy + y) (vx + x)
          (s.display (vy + y) (vx + x) ^^^ bitOf row (7 - x)) } := by
  unfold DRW_pixel
  rw [pixel_eq_bitOf]
  by_cases h : s.display (vy + y) (vx + x) ≠ 0 ∧ bitOf row (7 - x) ≠ 0
  · simp only [if_pos h]
  · simp only [if_neg h]

theorem DRW_cols_memory (vx vy y row : Nat) :
    ∀ (k x : Nat) (s : Chip), (DRW_cols vx vy y row k x s).memory = s.memory := by
  intro k
  induction k with
  | zero => intro x s; rfl
  | succ k ih =>
    intro x s
    unfold DRW_cols
    split_ifs
    · rfl
    · rw [ih, DRW_pixel_eq]

theorem DRW_cols_I (vx vy y row : Nat) :
    ∀ (k x : Nat) (s : Chip), (DRW_cols vx vy y row k x s).I = s.I := by
  intro k
  induction k with
  | zero => intro x s; rfl
  | succ k ih =>
    intro x s
    unfold DRW_cols
    split_ifs
    · rfl
    · rw [ih, DRW_pixel_eq]

theorem DRW_cols_V_other (vx vy y row i : Nat) (hi : i ≠ 0xF) :
    ∀ (k x : Nat) (s : Chip), (DRW_cols vx vy y row k x s).V i = s.V i := by
  intro k
  induction k with
  | zero => intro x s; rfl
  | succ k ih =>
    intro x s
    unfold DRW_cols
    split_ifs
    · rfl
    · rw [ih, DRW_pixel_eq]
      dsimp only
      split_ifs
      · exact setAt_other _ _ _ _ hi
      · rfl

theorem DRW_cols_display (vx vy y row : Nat) :
    ∀ (k x : Nat) (s : Chip) (r c : Nat),
      (DRW_cols vx vy y row k x s).display r c =
        if r = vy + y ∧ vy + y ≤ 31 ∧ vx + x ≤ c ∧ c < vx + x + k ∧ c ≤ 63
        then s.display r c ^^^ bitOf row (7 - (c - vx)) else s.display r c := by
  intro k
  induction k with
  | zero =>
    intro x s r c
    rw [if_neg (by omega)]
    rfl
  | succ k ih =>
    intro x s r c
    unfold DRW_cols
    by_cases hclip : vx + x > 63 ∨ vy + y > 31
    · rw [if_pos hclip, if_neg (by omega)]
    · rw [if_neg hclip, ih, DRW_pixel_eq]
      simp only [setAt2_apply]
      by_cases h1 : r = vy + y ∧ c = vx + x
      · obtain ⟨rfl, rfl⟩ := h1
        rw [if_neg (by omega), if_pos ⟨rfl, rfl⟩, if_pos (by omega)]
        congr 2
        omega
      · rw [if_neg h1]
        by_cases h2 : r = vy + y ∧ vy + y ≤ 31 ∧ vx + (x + 1) ≤ c ∧ c < vx + (x + 1) + k ∧ c ≤ 63
        · rw [if_pos h2, if_pos (by omega)]
        · rw [if_neg h2, if_neg (by omega)]

theorem DRW_cols_VF (vx vy y row : Nat) :
    ∀ (k x : Nat) (s : Chip),
      ((∃ j, x ≤ j ∧ j < x + k ∧ vx + j ≤ 63 ∧ vy + y ≤ 31 ∧
          s.display (vy + y) (vx + j) ≠ 0 ∧ bitOf row (7 - j) ≠ 0) →
        (DRW_cols vx vy y row k x s).V 0xF = 1) ∧
      ((¬ ∃ j, x ≤ j ∧ j < x + k ∧ vx + j ≤ 63 ∧ vy + y ≤ 31 ∧
          s.display (vy + y) (vx + j) ≠ 0 ∧ bitOf row (7 - j) ≠ 0) →
        (DRW_cols vx vy y row k x s).V 0xF = s.V 0xF) := by
  intro k
  induction k with
  | zero =>
    intro x s
    refine ⟨?_, fun _ => rfl⟩
    rintro ⟨j, h1, h2, _⟩
    omega
  | succ k ih =>
    intro x s
    unfold DRW_cols
    by_cases hclip : vx + x > 63 ∨ vy + y > 31
    · rw [if_pos hclip]
      refine ⟨?_, fun _ => rfl⟩
      rintro ⟨j, h1, h2, h3, h4, _⟩
      omega
    · rw [if_neg hclip]
      obtain ⟨ih1, ih2⟩ := ih (x + 1) (DRW_pixel vx vy y row x s)
      have hd : ∀ j, x + 1 ≤ j →
          (DRW_pixel vx vy y row x s).display (vy + y) (vx + j) = s.display (vy + y) (vx + j) := by
        intro j hj
        rw [DRW_pixel_eq]
        simp only [setAt2_apply]
        rw [if_neg (by omega)]
      have hV : (DRW_pixel vx vy y row x s).V 0xF =
          if s.display (vy + y) (vx + x) ≠ 0 ∧ bitOf row (7 - x) ≠ 0 then 1 else s.V 0xF := by
        rw [DRW_pixel_eq]
        dsimp only
        split_ifs
        · exact setAt_same _ _ _
        · rfl
      by_cases hex : ∃ j, x + 1 ≤ j ∧ j < x + 1 + k ∧ vx + j ≤ 63 ∧ vy + y ≤ 31 ∧
          (DRW_pixel vx vy y row x s).display (vy + y) (vx + j) ≠ 0 ∧ bitOf row (7 - j) ≠ 0
      · refine ⟨fun _ => ih1 hex, fun hno => ?_⟩
        exfalso
        obtain ⟨j, h1, h2, h3, h4, h5, h6⟩ := hex
        rw [hd j h1] at h5
        exact hno ⟨j, by omega, by omega, h3, h4, h5, h6⟩
      · rw [ih2 hex, hV]
        constructor
        · rintro ⟨j, h1, h2, h3, h4, h5, h6⟩
          by_cases hj : j = x
          · subst hj
            rw [if_pos ⟨h5, h6⟩]
          · exfalso
            apply hex
            refine ⟨j, by omega, by omega, h3, h4, ?_, h6⟩
            rw [hd j (by omega)]
            exact h5
        · intro hno
          rw [if_neg]
          rintro ⟨h5, h6⟩
          exact hno ⟨x, le_refl x, by omega, by omega, by omega, h5, h6⟩

theorem DRW_rows_memory (vx vy : Nat) :
    ∀ (n : Nat) (s : Chip),
      (forUpTo n (fun y s => DRW_cols vx vy y (s.memory (s.I + y)) 8 0 s) s).memory = s.memory ∧
      (forUpTo n (fun y s => DRW_cols vx vy y (s.memory (s.I + y)) 8 0 s) s).I = s.I := by
  intro n
  induction n with
  | zero => intro s; exact ⟨rfl, rfl⟩
  | succ n ih =>
    intro s
    rw [forUpTo_succ]
    rw [DRW_cols_memory, DRW_cols_I]
    exact ih s

theorem DRW_rows_V_other (vx vy i : Nat) (hi : i ≠ 0xF) :
    ∀ (n : Nat) (s : Chip),
      (forUpTo n (fun y s => DRW_cols vx vy y (s.memory (s.I + y)) 8 0 s) s).V i = s.V i := by
  intro n
  induction n with
  | zero => intro s; rfl
  | succ n ih =>
    intro s
    rw [forUpTo_succ]
    rw [DRW_cols_V_other _ _ _ _ _ hi]
    exact ih s

theorem DRW_rows_display (vx vy : Nat) :
    ∀ (n : Nat) (s : Chip) (r c : Nat),
      (forUpTo n (fun y s => DRW_cols vx vy y (s.memory (s.I + y)) 8 0 s) s).display r c =
        if vy ≤ r ∧ r < vy + n ∧ vx ≤ c ∧ c < vx + 8 ∧ r ≤ 31 ∧ c ≤ 63
        then s.display r c ^^^ bitOf (s.memory (s.I + (r - vy))) (7 - (c - vx))
        else s.display r c := by
  intro n
  induction n with
  | zero =>
    intro s r c
    rw [if_neg (by omega)]
    rfl
  | succ n ih =>
    intro s r c
    rw [forUpTo_succ]
    rw [DRW_cols_display, ih, (DRW_rows_memory vx vy n s).1, (DRW_rows_memory vx vy n s).2]
    by_cases h1 : r = vy + n ∧ vy + n ≤ 31 ∧ vx + 0 ≤ c ∧ c < vx + 0 + 8 ∧ c ≤ 63
    · obtain ⟨rfl, h1⟩ := h1
      rw [if_pos ⟨rfl, h1⟩, if_neg (by omega), if_pos (by omega)]
      congr 3
      omega
    · rw [if_neg h1]
      by_cases h2 : vy ≤ r ∧ r < vy + n ∧ vx ≤ c ∧ c < vx + 8 ∧ r ≤ 31 ∧ c ≤ 63
      · rw [if_pos h2, if_pos (by omega)]
      · rw [if_neg h2, if_neg (by omega)]

theorem DRW_rows_VF (vx vy : Nat) :
    ∀ (n : Nat) (s : Chip),
      ((∃ y x, y < n ∧ x < 8 ∧ vx + x ≤ 63 ∧ vy + y ≤ 31 ∧
          s.display (vy + y) (vx + x) ≠ 0 ∧ bitOf (s.memory (s.I + y)) (7 - x) ≠ 0) →
        (forUpTo n (fun y s => DRW_cols vx vy y (s.memory (s.I + y)) 8 0 s) s).V 0xF = 1) ∧
      ((¬ ∃ y x, y < n ∧ x < 8 ∧ vx + x ≤ 63 ∧ vy + y ≤ 31 ∧
          s.display (vy + y) (vx + x) ≠ 0 ∧ bitOf (s.memory (s.I + y)) (7 - x) ≠ 0) →
        (forUpTo n (fun y s => DRW_cols vx vy y (s.memory (s.I + y)) 8 0 s) s).V 0xF
          = s.V 0xF) := by
  intro n
  induction n with
  | zero =>
    intro s
    refine ⟨?_, fun _ => rfl⟩
    rintro ⟨y, x, h, _⟩
    omega
  | succ n ih =>
    intro s
    obtain ⟨ih1, ih2⟩ := ih s
    rw [forUpTo_succ]
    rw [(DRW_rows_memory vx vy n s).1, (DRW_rows_memory vx vy n s).2]
    obtain ⟨c1, c2⟩ := DRW_cols_VF vx vy n (s.memory (s.I + n)) 8 0
      (forUpTo n (fun y s => DRW_cols vx vy y (s.memory (s.I + y)) 8 0 s) s)
    have hd : ∀ j, (forUpTo n (fun y s => DRW_cols vx vy y (s.memory (s.I + y)) 8 0 s)
        s).display (vy + n) (vx + j) = s.display (vy + n) (vx + j) := by
      intro j
      rw [DRW_rows_display, if_neg (by omega)]
    simp only [hd] at c1 c2
    by_cases hrow : ∃ j, 0 ≤ j ∧ j < 0 + 8 ∧ vx + j ≤ 63 ∧ vy + n ≤ 31 ∧
        s.display (vy + n) (vx + j) ≠ 0 ∧ bitOf (s.memory (s.I + n)) (7 - j) ≠ 0
    · refine ⟨fun _ => c1 hrow, fun hno => ?_⟩
      exfalso
      obtain ⟨j, _, h2, h3, h4, h5, h6⟩ := hrow
      exact hno ⟨n, j, by omega, by omega, h3, h4, h5, h6⟩
    · rw [c2 hrow]
      constructor
      · rintro ⟨y, x, h1, h2, h3, h4, h5, h6⟩
        by_cases hy : y = n
        · subst hy
          exact absurd ⟨x, Nat.zero_le x, by omega, h3, h4, h5, h6⟩ hrow
        · exact ih1 ⟨y, x, by omega, h2, h3, h4, h5, h6⟩
      · intro hno
        apply ih2
        rintro ⟨y, x, h1, h2, h3, h4, h5, h6⟩
        exact hno ⟨y, x, by omega, h2, h3, h4, h5, h6⟩

/-- Dispatch of Dxyn. -/
theorem util_chip_execute_Dxyn (x y n : Nat) (hx : x < 16) (hy : y < 16) (hn : n < 16)
    (s : Chip) :
    util_chip_execute (0xD000 + 256 * x + 16 * y + n) s
      = DRW x y n { s with PC := (s.PC + 2) % 65536 } := by
  rw [util_chip_execute_fields _ s 0xD ((0xD000 + 256 * x + 16 * y + n) % 4096) x y
    ((0xD000 + 256 * x + 16 * y + n) % 256) n (by omega) rfl (by omega) (by omega) rfl
    (by omega)]
  simp

/-- The accepted case of `DRW`. -/
theorem DRW_accept (x y n : Nat) (s : Chip) (hvx : s.V x ≤ 63) (hvy : s.V y ≤ 32) :
    DRW x y n s =
      forUpTo n (fun j t => DRW_cols (s.V x % 64) (s.V y % 32) j (t.memory (t.I + j)) 8 0 t)
        { s with V := setAt s.V 0xF 0 } := by
  unfold DRW
  rw [if_neg (by omega)]

/-- The rejected case of `DRW`. -/
theorem DRW_reject (x y n : Nat) (s : Chip) (h : s.V x > 63 ∨ s.V y > 32) :
    DRW x y n s = s := by
  unfold DRW
  rw [if_pos h]

/-- What `DRW` never changes: memory, I, and the registers other than VF. -/
theorem DRW_frame (x y n : Nat) (s : Chip) :
    (DRW x y n s).memory = s.memory ∧ (DRW x y n s).I = s.I ∧
    (∀ i, i ≠ 0xF → (DRW x y n s).V i = s.V i) := by
  by_cases h : s.V x > 63 ∨ s.V y > 32
  · rw [DRW_reject x y n s h]
    exact ⟨rfl, rfl, fun _ _ => rfl⟩
  · rw [DRW_accept x y n s (by omega) (by omega)]
    refine ⟨(DRW_rows_memory _ _ n _).1, (DRW_rows_memory _ _ n _).2, ?_⟩
    intro i hi
    rw [DRW_rows_V_other _ _ i hi]
    exact setAt_other _ _ _ _ hi

/-- The display after an accepted `DRW`. -/
theorem DRW_display (x y n : Nat) (s : Chip) (hvx : s.V x ≤ 63) (hvy : s.V y ≤ 32)
    (r c : Nat) :
    (DRW x y n s).display r c =
      if s.V y % 32 ≤ r ∧ r < s.V y % 32 + n ∧ s.V x % 64 ≤ c ∧ c < s.V x % 64 + 8 ∧
          r ≤ 31 ∧ c ≤ 63
      then s.display r c ^^^ bitOf (s.memory (s.I + (r - s.V y % 32))) (7 - (c - s.V x % 64))
      else s.display r c := by
  rw [DRW_accept x y n s hvx hvy, DRW_rows_display]

/-- The collision flag after an accepted `DRW`, in terms of the display before it. -/
theorem DRW_VF (x y n : Nat) (s : Chip) (hvx : s.V x ≤ 63) (hvy : s.V y ≤ 32) :
    ((∃ j i, j < n ∧ i < 8 ∧ s.V x % 64 + i ≤ 63 ∧ s.V y % 32 + j ≤ 31 ∧
        s.display (s.V y % 32 + j) (s.V x % 64 + i) ≠ 0 ∧
        bitOf (s.memory (s.I + j)) (7 - i) ≠ 0) → (DRW x y n s).V 0xF = 1) ∧
    ((¬ ∃ j i, j < n ∧ i < 8 ∧ s.V x % 64 + i ≤ 63 ∧ s.V y % 32 + j ≤ 31 ∧
        s.display (s.V y % 32 + j) (s.V x % 64 + i) ≠ 0 ∧
        bitOf (s.memory (s.I + j)) (7 - i) ≠ 0) → (DRW x y n s).V 0xF = 0) := by
  rw [DRW_accept x y n s hvx hvy]
  obtain ⟨h1, h2⟩ := DRW_rows_VF (s.V x % 64) (s.V y % 32) n { s with V := setAt s.V 0xF 0 }
  refine ⟨h1, fun hno => ?_⟩
  rw [h2 hno]
  exact setAt_same s.V 0xF 0

/-- On entry to the inner-loop body for an in-grid sprite pixel, its display
cell still has the value it had before the instruction. -/
theorem DRW_before_display (x y j i : Nat) (s : Chip) :
    (DRW_before x y j i s).display (s.V y % 32 + j) (s.V x % 64 + i)
      = s.display (s.V y % 32 + j) (s.V x % 64 + i) := by
  unfold DRW_before
  dsimp only
  rw [DRW_cols_display, if_neg (by omega), DRW_rows_display, if_neg (by omega)]

/-- C3 (draw, display effect).  When Dxyn is not rejected (Vx ≤ 63, Vy ≤ 32)
and the sprite lies in memory (I + n ≤ 4096), with origin vx = Vx mod 64,
vy = Vy mod 32: every cell (r, c) with vy ≤ r < vy + n, vx ≤ c < vx + 8, r ≤ 31
and c ≤ 63 becomes its old value XOR bit 7 - (c - vx) of memory[I + (r - vy)],
and every other cell keeps its value; nothing is wrapped to the opposite edge. -/
theorem draw_display (s : Chip) (x y n : Nat) (hx : x < 16) (hy : y < 16) (hn : n < 16)
    (hvx : s.V x ≤ 63) (hvy : s.V y ≤ 32) (hI : s.I + n ≤ 4096) (r c : Nat) :
    (util_chip_execute (0xD000 + 256 * x + 16 * y + n) s).display r c =
      if s.V y % 32 ≤ r ∧ r < s.V y % 32 + n ∧ s.V x % 64 ≤ c ∧ c < s.V x % 64 + 8 ∧
          r ≤ 31 ∧ c ≤ 63
      then s.display r c ^^^ bitOf (s.memory (s.I + (r - s.V y % 32))) (7 - (c - s.V x % 64))
      else s.display r c := by
  have _ := hI
  rw [util_chip_execute_Dxyn x y n hx hy hn]
  exact DRW_display x y n { s with PC := (s.PC + 2) % 65536 } hvx hvy r c

/-- Witness of C3: the 8x1 all-ones sprite drawn at (60, 0) on a blank screen
lights exactly the columns 60..63 of row 0. -/
theorem draw_display_witness :
    (0 < 16 ∧ 1 < 16 ∧ 1 < 16 ∧ (spriteChip 60 0 0xFF).V 0 ≤ 63 ∧
      (spriteChip 60 0 0xFF).V 1 ≤ 32 ∧ (spriteChip 60 0 0xFF).I + 1 ≤ 4096) ∧
    ∀ r c, (util_chip_execute 0xD011 (spriteChip 60 0 0xFF)).display r c
      = if r = 0 ∧ 60 ≤ c ∧ c ≤ 63 then 1 else 0 := by
  refine ⟨by decide, fun r c => ?_⟩
  have h := draw_display (spriteChip 60 0 0xFF) 0 1 1 (by decide) (by decide) (by decide)
    (by decide) (by decide) (by decide) r c
  rw [show (0xD011 : Nat) = 0xD000 + 256 * 0 + 16 * 1 + 1 from rfl, h]
  have hV0 : (spriteChip 60 0 0xFF).V 0 = 60 := rfl
  have hV1 : (spriteChip 60 0 0xFF).V 1 = 0 := rfl
  have hI : (spriteChip 60 0 0xFF).I = 0x300 := rfl
  have hd : (spriteChip 60 0 0xFF).display r c = 0 := rfl
  have hm : (spriteChip 60 0 0xFF).memory 0x300 = 0xFF := rfl
  rw [hV0, hV1, hI, hd]
  by_cases hc : r = 0 ∧ 60 ≤ c ∧ c ≤ 63
  · obtain ⟨rfl, h1, h2⟩ := hc
    rw [if_pos (by omega), if_pos ⟨rfl, h1, h2⟩, hm]
    interval_cases c <;> rfl
  · rw [if_neg (by omega), if_neg hc]

/-- C4 (draw, collision flag).  When Dxyn is not rejected and the sprite lies
in memory: VF = 1 after the instruction if some sprite pixel (row j < n, column
i < 8) lands inside the grid, has sprite bit 1 and finds its display cell
non-zero at the moment it is XORed, and VF = 0 otherwise.  At that moment the
cell still holds the value it had before the instruction.  Drawing onto a blank
display leaves VF = 0. -/
theorem draw_collision (s : Chip) (x y n : Nat) (hx : x < 16) (hy : y < 16) (hn : n < 16)
    (hvx : s.V x ≤ 63) (hvy : s.V y ≤ 32) (hI : s.I + n ≤ 4096) :
    ((∃ j i, j < n ∧ i < 8 ∧ s.V y % 32 + j ≤ 31 ∧ s.V x % 64 + i ≤ 63 ∧
        bitOf (s.memory (s.I + j)) (7 - i) = 1 ∧
        (DRW_before x y j i { s with PC := (s.PC + 2) % 65536 }).display
          (s.V y % 32 + j) (s.V x % 64 + i) ≠ 0) →
      (util_chip_execute (0xD000 + 256 * x + 16 * y + n) s).V 0xF = 1) ∧
    ((¬ ∃ j i, j < n ∧ i < 8 ∧ s.V y % 32 + j ≤ 31 ∧ s.V x % 64 + i ≤ 63 ∧
        bitOf (s.memory (s.I + j)) (7 - i) = 1 ∧
        (DRW_before x y j i { s with PC := (s.PC + 2) % 65536 }).display
          (s.V y % 32 + j) (s.V x % 64 + i) ≠ 0) →
      (util_chip_execute (0xD000 + 256 * x + 16 * y + n) s).V 0xF = 0) ∧
    (∀ j i, (DRW_before x y j i { s with PC := (s.PC + 2) % 65536 }).display
        (s.V y % 32 + j) (s.V x % 64 + i) = s.display (s.V y % 32 + j) (s.V x % 64 + i)) ∧
    ((∀ r c, s.display r c = 0) →
      (util_chip_execute (0xD000 + 256 * x + 16 * y + n) s).V 0xF = 0) := by
  have _ := hI
  have hb : ∀ j i, (DRW_before x y j i { s with PC := (s.PC + 2) % 65536 }).display
      (s.V y % 32 + j) (s.V x % 64 + i) = s.display (s.V y % 32 + j) (s.V x % 64 + i) :=
    fun j i => DRW_before_display x y j i { s with PC := (s.PC + 2) % 65536 }
  rw [util_chip_execute_Dxyn x y n hx hy hn]
  obtain ⟨h1, h2⟩ := DRW_VF x y n { s with PC := (s.PC + 2) % 65536 } hvx hvy
  refine ⟨?_, ?_, hb, ?_⟩
  · rintro ⟨j, i, hj, hi, hr, hc, hbit, hcell⟩
    rw [hb] at hcell
    exact h1 ⟨j, i, hj, hi, hc, hr, hcell, by rw [hbit]; decide⟩
  · intro hno
    apply h2
    rintro ⟨j, i, hj, hi, hc, hr, hcell, hbit⟩
    apply hno
    refine ⟨j, i, hj, hi, hr, hc, ?_, ?_⟩
    · rcases bitOf_le_one (s.memory (s.I + j)) (7 - i) with h | h
      · exact absurd h hbit
      · exact h
    · rw [hb]
      exact hcell
  · intro hblank
    apply h2
    rintro ⟨j, i, _, _, _, _, hcell, _⟩
    exact hcell (hblank _ _)

/-- Witness of C4: with the cell (0, 0) already on, drawing the one-row sprite
0x80 at (0, 0) reports a collision. -/
theorem draw_collision_witness :
    (0 < 16 ∧ 1 < 16 ∧ 1 < 16 ∧ litChip.V 0 ≤ 63 ∧ litChip.V 1 ≤ 32 ∧ litChip.I + 1 ≤ 4096) ∧
    (util_chip_execute 0xD011 litChip).V 0xF = 1 ∧
    (util_chip_execute 0xD011 (spriteChip 60 0 0xFF)).V 0xF = 0 := by
  refine ⟨by decide, ?_, ?_⟩
  · refine (draw_collision litChip 0 1 1 (by decide) (by decide) (by decide) (by decide)
      (by decide) (by decide)).1 ⟨0, 0, by decide, by decide, by decide, by decide, ?_, ?_⟩
    · rfl
    · rw [DRW_before_display]
      decide
  · exact (draw_collision (spriteChip 60 0 0xFF) 0 1 1 (by decide) (by decide) (by decide)
      (by decide) (by decide) (by decide)).2.2.2 (fun _ _ => rfl)

/-- Two successive `DRW` with the same operands, neither register being VF,
restore the display. -/
theorem DRW_DRW_display (x y n : Nat) (hxF : x ≠ 0xF) (hyF : y ≠ 0xF) (s : Chip) (p : Nat)
    (r c : Nat) :
    (DRW x y n { DRW x y n s with PC := p }).display r c = s.display r c := by
  obtain ⟨hm, hi, hv⟩ := DRW_frame x y n s
  by_cases h : s.V x > 63 ∨ s.V y > 32
  · have h1 : DRW x y n s = s := DRW_reject x y n s h
    rw [h1, DRW_reject x y n { s with PC := p } h]
  · have hvx : s.V x ≤ 63 := by omega
    have hvy : s.V y ≤ 32 := by omega
    have hvx1 : ({ DRW x y n s with PC := p } : Chip).V x ≤ 63 := by
      show (DRW x y n s).V x ≤ 63
      rw [hv x hxF]
      exact hvx
    have hvy1 : ({ DRW x y n s with PC := p } : Chip).V y ≤ 32 := by
      show (DRW x y n s).V y ≤ 32
      rw [hv y hyF]
      exact hvy
    rw [DRW_display x y n _ hvx1 hvy1]
    show (if (DRW x y n s).V y % 32 ≤ r ∧ r < (DRW x y n s).V y % 32 + n ∧
        (DRW x y n s).V x % 64 ≤ c ∧ c < (DRW x y n s).V x % 64 + 8 ∧ r ≤ 31 ∧ c ≤ 63
      then (DRW x y n s).display r c ^^^
        bitOf ((DRW x y n s).memory ((DRW x y n s).I + (r - (DRW x y n s).V y % 32)))
          (7 - (c - (DRW x y n s).V x % 64))
      else (DRW x y n s).display r c) = s.display r c
    rw [hv x hxF, hv y hyF, hm, hi, DRW_display x y n s hvx hvy]
    split_ifs
    · rw [Nat.xor_assoc, Nat.xor_self, Nat.xor_zero]
    · rfl

/-- C5 (draw twice, display).  For coordinate registers x and y other than F
and a sprite inside memory (I + n ≤ 4096), executing Dxyn twice in a row leaves
the whole display as it was before the first draw; starting from a blank
display it is blank again. -/
theorem draw_twice_display (s : Chip) (x y n : Nat) (hx : x < 16) (hy : y < 16) (hn : n < 16)
    (hxF : x ≠ 0xF) (hyF : y ≠ 0xF) (hI : s.I + n ≤ 4096) :
    (util_chip_execute (0xD000 + 256 * x + 16 * y + n)
        (util_chip_execute (0xD000 + 256 * x + 16 * y + n) s)).display = s.display ∧
    ((∀ r c, s.display r c = 0) →
      ∀ r c, (util_chip_execute (0xD000 + 256 * x + 16 * y + n)
        (util_chip_execute (0xD000 + 256 * x + 16 * y + n) s)).display r c = 0) := by
  have _ := hI
  have key : ∀ r c, (util_chip_execute (0xD000 + 256 * x + 16 * y + n)
      (util_chip_execute (0xD000 + 256 * x + 16 * y + n) s)).display r c = s.display r c := by
    intro r c
    rw [util_chip_execute_Dxyn x y n hx hy hn, util_chip_execute_Dxyn x y n hx hy hn]
    exact DRW_DRW_display x y n hxF hyF { s with PC := (s.PC + 2) % 65536 } _ r c
  refine ⟨?_, ?_⟩
  · funext r c
    exact key r c
  · intro hblank r c
    rw [key r c]
    exact hblank r c

/-- Witness of C5: the all-ones row drawn twice at (60, 0) leaves a blank screen. -/
theorem draw_twice_display_witness :
    (0 < 16 ∧ 1 < 16 ∧ 1 < 16 ∧ 0 ≠ 0xF ∧ 1 ≠ 0xF ∧ (spriteChip 60 0 0xFF).I + 1 ≤ 4096) ∧
    (util_chip_execute 0xD011 (util_chip_execute 0xD011 (spriteChip 60 0 0xFF))).display
      = (spriteChip 60 0 0xFF).display ∧
    ∀ r c, (util_chip_execute 0xD011
      (util_chip_execute 0xD011 (spriteChip 60 0 0xFF))).display r c = 0 :=
  ⟨by decide,
    (draw_twice_display (spriteChip 60 0 0xFF) 0 1 1 (by decide) (by decide) (by decide)
      (by decide) (by decide) (by decide)).1,
    (draw_twice_display (spriteChip 60 0 0xFF) 0 1 1 (by decide) (by decide) (by decide)
      (by decide) (by decide) (by decide)).2 (fun _ _ => rfl)⟩

/-- C7 (draw rejected).  When the unwrapped coordinate registers satisfy
Vx > 63 or Vy > 32, executing Dxyn changes nothing but PC, which advances by 2:
the display and VF, like every other component, keep their values. -/
theorem draw_rejected (s : Chip) (x y n : Nat) (hx : x < 16) (hy : y < 16) (hn : n < 16)
    (h : s.V x > 63 ∨ s.V y > 32) :
    util_chip_execute (0xD000 + 256 * x + 16 * y + n) s
      = { s with PC := (s.PC + 2) % 65536 } := by
  rw [util_chip_execute_Dxyn x y n hx hy hn]
  exact DRW_reject x y n { s with PC := (s.PC + 2) % 65536 } h

/-- Witness of C7: with V0 = 64 the draw D011 only advances PC from 0x200 to 0x202. -/
theorem draw_rejected_witness :
    (0 < 16 ∧ 1 < 16 ∧ 1 < 16 ∧ ((spriteChip 64 0 0xFF).V 0 > 63 ∨ (spriteChip 64 0 0xFF).V 1 > 32)) ∧
    util_chip_execute 0xD011 (spriteChip 64 0 0xFF) = { spriteChip 64 0 0xFF with PC := 0x202 } :=
  ⟨by decide, draw_rejected (spriteChip 64 0 0xFF) 0 1 1 (by decide) (by decide) (by decide)
    (by decide)⟩

theorem spriteChip_WF (vx vy row : Nat) (hvx : vx < 256) (hvy : vy < 256) (hrow : row < 256) :
    (spriteChip vx vy row).WF := by
  constructor <;> intros <;> simp only [spriteChip, zeroChip, setAt_apply] <;>
    first | omega | (split_ifs <;> omega)

theorem bitOf_zero (k : Nat) : bitOf 0 k = 0 := by
  simp [bitOf]

/-- The collision flag of the second of two successive `DRW` with the same
operands, neither register being VF, on a display that was blank at first. -/
theorem DRW_DRW_VF (x y n : Nat) (hxF : x ≠ 0xF) (hyF : y ≠ 0xF) (s : Chip) (p : Nat)
    (hvx : s.V x ≤ 63) (hvy : s.V y ≤ 32) (hblank : ∀ r c, s.display r c = 0) :
    ((∃ j i, j < n ∧ i < 8 ∧ s.V x % 64 + i ≤ 63 ∧ s.V y % 32 + j ≤ 31 ∧
        bitOf (s.memory (s.I + j)) (7 - i) ≠ 0) →
      (DRW x y n { DRW x y n s with PC := p }).V 0xF = 1) ∧
    ((¬ ∃ j i, j < n ∧ i < 8 ∧ s.V x % 64 + i ≤ 63 ∧ s.V y % 32 + j ≤ 31 ∧
        bitOf (s.memory (s.I + j)) (7 - i) ≠ 0) →
      (DRW x y n { DRW x y n s with PC := p }).V 0xF = 0) := by
  obtain ⟨hm, hi, hv⟩ := DRW_frame x y n s
  have hVx : ({ DRW x y n s with PC := p } : Chip).V x = s.V x := hv x hxF
  have hVy : ({ DRW x y n s with PC := p } : Chip).V y = s.V y := hv y hyF
  have hM : ({ DRW x y n s with PC := p } : Chip).memory = s.memory := hm
  have hI : ({ DRW x y n s with PC := p } : Chip).I = s.I := hi
  have hD : ∀ j i, j < n → i < 8 → s.V x % 64 + i ≤ 63 → s.V y % 32 + j ≤ 31 →
      ({ DRW x y n s with PC := p } : Chip).display (s.V y % 32 + j) (s.V x % 64 + i)
        = bitOf (s.memory (s.I + j)) (7 - i) := by
    intro j i hj hi8 hc hr
    show (DRW x y n s).display (s.V y % 32 + j) (s.V x % 64 + i) = _
    rw [DRW_display x y n s hvx hvy, if_pos (by omega), hblank, Nat.zero_xor,
      Nat.add_sub_cancel_left, Nat.add_sub_cancel_left]
  obtain ⟨h1, h2⟩ := DRW_VF x y n { DRW x y n s with PC := p }
    (by rw [hVx]; exact hvx) (by rw [hVy]; exact hvy)
  rw [hVx, hVy, hM, hI] at h1 h2
  constructor
  · rintro ⟨j, i, hj, hi8, hc, hr, hbit⟩
    exact h1 ⟨j, i, hj, hi8, hc, hr, by rw [hD j i hj hi8 hc hr]; exact hbit, hbit⟩
  · intro hno
    apply h2
    rintro ⟨j, i, hj, hi8, hc, hr, _, hbit⟩
    exact hno ⟨j, i, hj, hi8, hc, hr, hbit⟩

/-- C6, as stated, fails for a sprite without a lit pixel: the one-row sprite
0x00 drawn twice at (0, 0) on a blank display ends with VF = 0. -/
theorem draw_twice_flag_counterexample :
    (spriteChip 0 0 0).WF ∧ (∀ r c, (spriteChip 0 0 0).display r c = 0) ∧
    (spriteChip 0 0 0).V 0 ≤ 63 ∧ (spriteChip 0 0 0).V 1 ≤ 31 ∧
    ¬ ((util_chip_execute 0xD011 (util_chip_execute 0xD011 (spriteChip 0 0 0))).V 0xF = 1) := by
  refine ⟨spriteChip_WF 0 0 0 (by decide) (by decide) (by decide), fun _ _ => rfl, by decide,
    by decide, ?_⟩
  rw [show (0xD011 : Nat) = 0xD000 + 256 * 0 + 16 * 1 + 1 from rfl,
    util_chip_execute_Dxyn 0 1 1 (by decide) (by decide) (by decide),
    util_chip_execute_Dxyn 0 1 1 (by decide) (by decide) (by decide)]
  have hz := (DRW_DRW_VF 0 1 1 (by decide) (by decide)
    { spriteChip 0 0 0 with PC := ((spriteChip 0 0 0).PC + 2) % 65536 }
    (((DRW 0 1 1 { spriteChip 0 0 0 with PC := ((spriteChip 0 0 0).PC + 2) % 65536 }).PC + 2)
      % 65536)
    (by decide) (by decide) (fun _ _ => rfl)).2
  rw [hz]
  · decide
  · rintro ⟨j, i, hj, _, _, _, hbit⟩
    apply hbit
    have hj0 : j = 0 := by omega
    subst hj0
    exact bitOf_zero _

/-- C6 (draw twice, flag), amended.  For coordinate registers x and y other
than F holding an in-range coordinate (Vx ≤ 63, Vy ≤ 31), a sprite inside
memory and a blank display: after Dxyn is executed twice in a row, VF = 1 if
the sprite has a 1 bit at some pixel (row j < n, column i < 8) that lands
inside the grid, and VF = 0 if it has none (n = 0, all rows zero, or every
1 bit clipped). -/
theorem draw_twice_flag (s : Chip) (x y n : Nat) (hx : x < 16) (hy : y < 16) (hn : n < 16)
    (hxF : x ≠ 0xF) (hyF : y ≠ 0xF) (hvx : s.V x ≤ 63) (hvy : s.V y ≤ 31)
    (hI : s.I + n ≤ 4096) (hblank : ∀ r c, s.display r c = 0) :
    ((∃ j i, j < n ∧ i < 8 ∧ s.V x + i ≤ 63 ∧ s.V y + j ≤ 31 ∧
        bitOf (s.memory (s.I + j)) (7 - i) = 1) →
      (util_chip_execute (0xD000 + 256 * x + 16 * y + n)
        (util_chip_execute (0xD000 + 256 * x + 16 * y + n) s)).V 0xF = 1) ∧
    ((¬ ∃ j i, j < n ∧ i < 8 ∧ s.V x + i ≤ 63 ∧ s.V y + j ≤ 31 ∧
        bitOf (s.memory (s.I + j)) (7 - i) = 1) →
      (util_chip_execute (0xD000 + 256 * x + 16 * y + n)
        (util_chip_execute (0xD000 + 256 * x + 16 * y + n) s)).V 0xF = 0) := by
  have _ := hI
  rw [util_chip_execute_Dxyn x y n hx hy hn, util_chip_execute_Dxyn x y n hx hy hn]
  obtain ⟨h1, h2⟩ := DRW_DRW_VF x y n hxF hyF { s with PC := (s.PC + 2) % 65536 }
    (((DRW x y n { s with PC := (s.PC + 2) % 65536 }).PC + 2) % 65536)
    hvx (Nat.le_succ_of_le hvy) hblank
  have ex : s.V x % 64 = s.V x := Nat.mod_eq_of_lt (by omega)
  have ey : s.V y % 32 = s.V y := Nat.mod_eq_of_lt (by omega)
  constructor
  · rintro ⟨j, i, hj, hi8, hc, hr, hbit⟩
    exact h1 ⟨j, i, hj, hi8, by rw [ex]; exact hc, by rw [ey]; exact hr, by rw [hbit]; decide⟩
  · intro hno
    apply h2
    rintro ⟨j, i, hj, hi8, hc, hr, hbit⟩
    apply hno
    refine ⟨j, i, hj, hi8, by rw [← ex]; exact hc, by rw [← ey]; exact hr, ?_⟩
    rcases bitOf_le_one (s.memory (s.I + j)) (7 - i) with h | h
    · exact absurd h hbit
    · exact h

/-- Witness of the amended C6: the all-ones row drawn twice at (60, 0) on a
blank display ends with VF = 1. -/
theorem draw_twice_flag_witness :
    (0 < 16 ∧ 1 < 16 ∧ 1 < 16 ∧ 0 ≠ 0xF ∧ 1 ≠ 0xF ∧ (spriteChip 60 0 0xFF).V 0 ≤ 63 ∧
      (spriteChip 60 0 0xFF).V 1 ≤ 31 ∧ (spriteChip 60 0 0xFF).I + 1 ≤ 4096 ∧
      ∀ r c, (spriteChip 60 0 0xFF).display r c = 0) ∧
    (util_chip_execute 0xD011 (util_chip_execute 0xD011 (spriteChip 60 0 0xFF))).V 0xF = 1 :=
  ⟨⟨by decide, by decide, by decide, by decide, by decide, by decide, by decide, by decide,
      fun _ _ => rfl⟩,
    (draw_twice_flag (spriteChip 60 0 0xFF) 0 1 1 (by decide) (by decide) (by decide)
      (by decide) (by decide) (by decide) (by decide) (by decide) (fun _ _ => rfl)).1
      ⟨0, 0, by decide, by decide, by decide, by decide, rfl⟩⟩

/-! ## Subroutines -/

/-- Dispatch of 2nnn. -/
theorem util_chip_execute_2nnn (nnn : Nat) (hn : nnn < 0x1000) (s : Chip) :
    util_chip_execute (0x2000 + nnn) s = CALL nnn { s with PC := (s.PC + 2) % 65536 } := by
  rw [util_chip_execute_fields _ s 2 nnn ((0x2000 + nnn) / 256 % 16) ((0x2000 + nnn) / 16 % 16)
    ((0x2000 + nnn) % 256) ((0x2000 + nnn) % 16) (by omega) (by omega) rfl rfl rfl rfl]
  simp

/-- Dispatch of 00EE. -/
theorem util_chip_execute_00EE (s : Chip) :
    util_chip_execute 0x00EE s = RET { s with PC := (s.PC + 2) % 65536 } := by
  rw [util_chip_execute_fields 0x00EE s 0 0x0EE 0 0xE 0xEE 0xE rfl rfl rfl rfl rfl rfl]
  simp

/-- C2 (call then return).  From a state with SP ≤ 14, executing 2nnn and then
00EE leaves SP as it was and PC at the address after the call: PC + 2 in the
16-bit program counter, which is PC + 2 exactly whenever that fits 16 bits, as
it does for every PC from which an opcode can be fetched (PC ≤ 0xFFE). -/
theorem call_then_return (s : Chip) (nnn : Nat) (hn : nnn < 0x1000) (hsp : s.SP ≤ 14) :
    (util_chip_execute 0x00EE (util_chip_execute (0x2000 + nnn) s)).SP = s.SP ∧
    (util_chip_execute 0x00EE (util_chip_execute (0x2000 + nnn) s)).PC
      = (s.PC + 2) % 65536 ∧
    (s.PC + 2 < 65536 →
      (util_chip_execute 0x00EE (util_chip_execute (0x2000 + nnn) s)).PC = s.PC + 2) := by
  rw [util_chip_execute_2nnn nnn hn, util_chip_execute_00EE]
  have hsp1 : (s.SP + 1) % 256 = s.SP + 1 := Nat.mod_eq_of_lt (by omega)
  refine ⟨?_, ?_, ?_⟩
  · simp only [CALL, RET, sub8, hsp1]
    omega
  · simp only [CALL, RET, setAt_same]
  · intro hpc
    simp only [CALL, RET, setAt_same]
    exact Nat.mod_eq_of_lt hpc

/-- Witness of C2: from PC = 0x200, SP = 0, the call 2300 followed by 00EE
ends at PC = 0x202 with SP = 0. -/
theorem call_then_return_witness :
    (0x300 < 0x1000 ∧ (regChip 0 0 0).SP ≤ 14) ∧
    (util_chip_execute 0x00EE (util_chip_execute 0x2300 (regChip 0 0 0))).SP = 0 ∧
    (util_chip_execute 0x00EE (util_chip_execute 0x2300 (regChip 0 0 0))).PC = 0x202 ∧
    (0x200 + 2 < 65536 →
      (util_chip_execute 0x00EE (util_chip_execute 0x2300 (regChip 0 0 0))).PC = 0x202) :=
  ⟨by decide, call_then_return (regChip 0 0 0) 0x300 (by decide) (by decide)⟩

/-! ## Shifts and bitwise instructions -/

/-- Dispatch of 8xy6. -/
theorem util_chip_execute_8xy6 (x y : Nat) (hx : x < 16) (hy : y < 16) (s : Chip) :
    util_chip_execute (0x8006 + 256 * x + 16 * y) s
      = SHR x y { s with PC := (s.PC + 2) % 65536 } := by
  rw [util_chip_execute_fields _ s 8 ((0x8006 + 256 * x + 16 * y) % 4096) x y
    ((0x8006 + 256 * x + 16 * y) % 256) 6 (by omega) rfl (by omega) (by omega) rfl (by omega)]
  simp

/-- Dispatch of 8xyE. -/
theorem util_chip_execute_8xyE (x y : Nat) (hx : x < 16) (hy : y < 16) (s : Chip) :
    util_chip_execute (0x800E + 256 * x + 16 * y) s
      = SHL x y { s with PC := (s.PC + 2) % 65536 } := by
  rw [util_chip_execute_fields _ s 8 ((0x800E + 256 * x + 16 * y) % 4096) x y
    ((0x800E + 256 * x + 16 * y) % 256) 0xE (by omega) rfl (by omega) (by omega) rfl
    (by omega)]
  simp

/-- The test `v & 0x01` of `SHR` yields the low bit. -/
theorem lsb_flag (v : Nat) : (if v &&& 0x01 ≠ 0 then 1 else 0) = v &&& 1 := by
  rw [Nat.and_one_is_mod]
  split_ifs <;> omega

/-- The test `v & 0x80` of `SHL` yields bit 7. -/
theorem msb_flag (v : Nat) : (if v &&& 0x80 ≠ 0 then 1 else 0) = (v >>> 7) &&& 1 := by
  have h1 : (v &&& 0x80) >>> 7 = bitOf v 7 := pixel_eq_bitOf v 7
  have h2 : (v &&& 0x80) % 128 = 0 := by
    have h := Nat.and_pow_two_sub_one_eq_mod (v &&& 0x80) 7
    rw [Nat.and_assoc] at h
    rw [← h]
    exact Nat.and_zero v
  rw [Nat.shiftRight_eq_div_pow] at h1
  rw [Nat.and_one_is_mod, Nat.shiftRight_eq_div_pow]
  unfold bitOf at h1
  split_ifs <;> omega

/-- C11 (shifts).  For x other than F the shifts read Vy and write Vx: after
8xy6, Vx = Vy >> 1 and VF = Vy & 1; after 8xyE, Vx = (Vy << 1) mod 256 and
VF = (Vy >> 7) & 1.  When x and y differ, the value Vx held before has no
influence on either result. -/
theorem shifts_spec (s : Chip) (x y : Nat) (hx : x < 16) (hy : y < 16) (hxF : x ≠ 0xF) :
    (util_chip_execute (0x8006 + 256 * x + 16 * y) s).V x = s.V y >>> 1 ∧
    (util_chip_execute (0x8006 + 256 * x + 16 * y) s).V 0xF = s.V y &&& 1 ∧
    (util_chip_execute (0x800E + 256 * x + 16 * y) s).V x = (s.V y <<< 1) % 256 ∧
    (util_chip_execute (0x800E + 256 * x + 16 * y) s).V 0xF = (s.V y >>> 7) &&& 1 ∧
    (x ≠ y → ∀ v,
      (util_chip_execute (0x8006 + 256 * x + 16 * y) { s with V := setAt s.V x v }).V x
        = (util_chip_execute (0x8006 + 256 * x + 16 * y) s).V x ∧
      (util_chip_execute (0x8006 + 256 * x + 16 * y) { s with V := setAt s.V x v }).V 0xF
        = (util_chip_execute (0x8006 + 256 * x + 16 * y) s).V 0xF ∧
      (util_chip_execute (0x800E + 256 * x + 16 * y) { s with V := setAt s.V x v }).V x
        = (util_chip_execute (0x800E + 256 * x + 16 * y) s).V x ∧
      (util_chip_execute (0x800E + 256 * x + 16 * y) { s with V := setAt s.V x v }).V 0xF
        = (util_chip_execute (0x800E + 256 * x + 16 * y) s).V 0xF) := by
  simp only [util_chip_execute_8xy6 x y hx hy, util_chip_execute_8xyE x y hx hy]
  refine ⟨?_, ?_, ?_, ?_, ?_⟩
  · simp [SHR, setAt_apply, hxF]
  · simp only [SHR, setAt_same]
    exact lsb_flag _
  · simp [SHL, setAt_apply, hxF]
  · simp only [SHL, setAt_same]
    exact msb_flag _
  · intro hxy v
    have hyx : y ≠ x := fun h => hxy h.symm
    simp [SHR, SHL, setAt_apply, hxF, hyx]

/-- Witness of C11: with V1 = 0x01 opcode 8016 gives V0 = 0, VF = 1, and with
V1 = 0x80 opcode 801E gives V0 = 0, VF = 1, whatever V0 held. -/
theorem shifts_spec_witness :
    (0 < 16 ∧ 1 < 16 ∧ 0 ≠ 0xF) ∧
    ((util_chip_execute 0x8016 (regChip 7 0x01 0)).V 0 = 0 ∧
      (util_chip_execute 0x8016 (regChip 7 0x01 0)).V 0xF = 1) ∧
    ((util_chip_execute 0x801E (regChip 7 0x80 0)).V 0 = 0 ∧
      (util_chip_execute 0x801E (regChip 7 0x80 0)).V 0xF = 1) :=
  ⟨by decide,
    ⟨(shifts_spec (regChip 7 0x01 0) 0 1 (by decide) (by decide) (by decide)).1,
      (shifts_spec (regChip 7 0x01 0) 0 1 (by decide) (by decide) (by decide)).2.1⟩,
    ⟨(shifts_spec (regChip 7 0x80 0) 0 1 (by decide) (by decide) (by decide)).2.2.1,
      (shifts_spec (regChip 7 0x80 0) 0 1 (by decide) (by decide) (by decide)).2.2.2.1⟩⟩

/-- Dispatch of 8xy1. -/
theorem util_chip_execute_8xy1 (x y : Nat) (hx : x < 16) (hy : y < 16) (s : Chip) :
    util_chip_execute (0x8001 + 256 * x + 16 * y) s
      = OR x y { s with PC := (s.PC + 2) % 65536 } := by
  rw [util_chip_execute_fields _ s 8 ((0x8001 + 256 * x + 16 * y) % 4096) x y
    ((0x8001 + 256 * x + 16 * y) % 256) 1 (by omega) rfl (by omega) (by omega) rfl (by omega)]
  simp

/-- Dispatch of 8xy2. -/
theorem util_chip_execute_8xy2 (x y : Nat) (hx : x < 16) (hy : y < 16) (s : Chip) :
    util_chip_execute (0x8002 + 256 * x + 16 * y) s
      = AND x y { s with PC := (s.PC + 2) % 65536 } := by
  rw [util_chip_execute_fields _ s 8 ((0x8002 + 256 * x + 16 * y) % 4096) x y
    ((0x8002 + 256 * x + 16 * y) % 256) 2 (by omega) rfl (by omega) (by omega) rfl (by omega)]
  simp

/-- Dispatch of 8xy3. -/
theorem util_chip_execute_8xy3 (x y : Nat) (hx : x < 16) (hy : y < 16) (s : Chip) :
    util_chip_execute (0x8003 + 256 * x + 16 * y) s
      = XOR x y { s with PC := (s.PC + 2) % 65536 } := by
  rw [util_chip_execute_fields _ s 8 ((0x8003 + 256 * x + 16 * y) % 4096) x y
    ((0x8003 + 256 * x + 16 * y) % 256) 3 (by omega) rfl (by omega) (by omega) rfl (by omega)]
  simp

/-- C20 (or, and, xor).  For all x and y, VF = 0 after 8xy1, 8xy2 and 8xy3;
for x other than F, Vx = Vx | Vy, Vx & Vy, Vx ^ Vy respectively; every register
other than Vx and VF keeps its value. -/
theorem bitwise_spec (s : Chip) (x y : Nat) (hx : x < 16) (hy : y < 16) :
    ((util_chip_execute (0x8001 + 256 * x + 16 * y) s).V 0xF = 0 ∧
      (util_chip_execute (0x8002 + 256 * x + 16 * y) s).V 0xF = 0 ∧
      (util_chip_execute (0x8003 + 256 * x + 16 * y) s).V 0xF = 0) ∧
    (x ≠ 0xF →
      (util_chip_execute (0x8001 + 256 * x + 16 * y) s).V x = s.V x ||| s.V y ∧
      (util_chip_execute (0x8002 + 256 * x + 16 * y) s).V x = s.V x &&& s.V y ∧
      (util_chip_execute (0x8003 + 256 * x + 16 * y) s).V x = s.V x ^^^ s.V y) ∧
    (∀ i, i ≠ x → i ≠ 0xF →
      (util_chip_execute (0x8001 + 256 * x + 16 * y) s).V i = s.V i ∧
      (util_chip_execute (0x8002 + 256 * x + 16 * y) s).V i = s.V i ∧
      (util_chip_execute (0x8003 + 256 * x + 16 * y) s).V i = s.V i) := by
  simp only [util_chip_execute_8xy1 x y hx hy, util_chip_execute_8xy2 x y hx hy,
    util_chip_execute_8xy3 x y hx hy]
  refine ⟨?_, ?_, ?_⟩
  · simp [OR, AND, XOR]
  · intro hxF
    simp [OR, AND, XOR, setAt_apply, hxF]
  · intro i hix hiF
    simp [OR, AND, XOR, setAt_apply, hix, hiF]

/-- Witness of C20: V0 = 0x0C, V1 = 0x0A, VF = 1 gives 0x0E, 0x08, 0x06 in V0
and VF = 0, with V1 untouched. -/
theorem bitwise_spec_witness :
    (0 < 16 ∧ 1 < 16) ∧
    ((util_chip_execute 0x8011 (regChip 0x0C 0x0A 1)).V 0xF = 0 ∧
      (util_chip_execute 0x8012 (regChip 0x0C 0x0A 1)).V 0xF = 0 ∧
      (util_chip_execute 0x8013 (regChip 0x0C 0x0A 1)).V 0xF = 0) ∧
    (0 ≠ 0xF →
      (util_chip_execute 0x8011 (regChip 0x0C 0x0A 1)).V 0 = 0x0E ∧
      (util_chip_execute 0x8012 (regChip 0x0C 0x0A 1)).V 0 = 0x08 ∧
      (util_chip_execute 0x8013 (regChip 0x0C 0x0A 1)).V 0 = 0x06) ∧
    (∀ i, i ≠ 0 → i ≠ 0xF →
      (util_chip_execute 0x8011 (regChip 0x0C 0x0A 1)).V i = (regChip 0x0C 0x0A 1).V i ∧
      (util_chip_execute 0x8012 (regChip 0x0C 0x0A 1)).V i = (regChip 0x0C 0x0A 1).V i ∧
      (util_chip_execute 0x8013 (regChip 0x0C 0x0A 1)).V i = (regChip 0x0C 0x0A 1).V i) :=
  ⟨by decide, bitwise_spec (regChip 0x0C 0x0A 1) 0 1 (by decide) (by decide)⟩

/-! ## Decimal conversion and timers -/

/-- Dispatch of Fx33. -/
theorem util_chip_execute_Fx33 (x : Nat) (hx : x < 16) (s : Chip) :
    util_chip_execute (0xF033 + 256 * x) s = LDB x { s with PC := (s.PC + 2) % 65536 } := by
  rw [util_chip_execute_fields _ s 0xF ((0xF033 + 256 * x) % 4096) x 3 0x33 3
    (by omega) rfl (by omega) (by omega) (by omega) (by omega)]
  simp

/-- C18 (bcd).  For Vx in 0..255 and I ≤ 0xFFD, after Fx33 memory[I] = Vx / 100,
memory[I+1] = (Vx / 10) mod 10, memory[I+2] = Vx mod 10; the three bytes are
decimal digits with 100 * memory[I] + 10 * memory[I+1] + memory[I+2] = Vx; every
other memory byte, I and all registers keep their values. -/
theorem bcd_spec (s : Chip) (x : Nat) (hx : x < 16) (hv : s.V x < 256) (hI : s.I ≤ 0xFFD) :
    (util_chip_execute (0xF033 + 256 * x) s).memory s.I = s.V x / 100 ∧
    (util_chip_execute (0xF033 + 256 * x) s).memory (s.I + 1) = s.V x / 10 % 10 ∧
    (util_chip_execute (0xF033 + 256 * x) s).memory (s.I + 2) = s.V x % 10 ∧
    ((util_chip_execute (0xF033 + 256 * x) s).memory s.I ≤ 9 ∧
      (util_chip_execute (0xF033 + 256 * x) s).memory (s.I + 1) ≤ 9 ∧
      (util_chip_execute (0xF033 + 256 * x) s).memory (s.I + 2) ≤ 9) ∧
    100 * (util_chip_execute (0xF033 + 256 * x) s).memory s.I
      + 10 * (util_chip_execute (0xF033 + 256 * x) s).memory (s.I + 1)
      + (util_chip_execute (0xF033 + 256 * x) s).memory (s.I + 2) = s.V x ∧
    (∀ j, j ≠ s.I → j ≠ s.I + 1 → j ≠ s.I + 2 →
      (util_chip_execute (0xF033 + 256 * x) s).memory j = s.memory j) ∧
    (util_chip_execute (0xF033 + 256 * x) s).I = s.I ∧
    (util_chip_execute (0xF033 + 256 * x) s).V = s.V := by
  have _ := hI
  rw [util_chip_execute_Fx33 x hx]
  have h0 : (LDB x { s with PC := (s.PC + 2) % 65536 }).memory s.I = s.V x / 100 := by
    simp [LDB, setAt_apply]
  have h1 : (LDB x { s with PC := (s.PC + 2) % 65536 }).memory (s.I + 1) = s.V x / 10 % 10 := by
    simp [LDB, setAt_apply]
    omega
  have h2 : (LDB x { s with PC := (s.PC + 2) % 65536 }).memory (s.I + 2) = s.V x % 10 := by
    simp [LDB, setAt_apply]
  refine ⟨h0, h1, h2, ?_, ?_, ?_, rfl, rfl⟩
  · rw [h0, h1, h2]
    omega
  · rw [h0, h1, h2]
    omega
  · intro j hj0 hj1 hj2
    simp [LDB, setAt_apply, hj0, hj1, hj2]

/-- Witness of C18: V0 = 255 at I = 0 stores the digits 2, 5, 5. -/
theorem bcd_spec_witness :
    (0 < 16 ∧ (regChip 255 0 0).V 0 < 256 ∧ (regChip 255 0 0).I ≤ 0xFFD) ∧
    (util_chip_execute 0xF033 (regChip 255 0 0)).memory 0 = 2 ∧
    (util_chip_execute 0xF033 (regChip 255 0 0)).memory 1 = 5 ∧
    (util_chip_execute 0xF033 (regChip 255 0 0)).memory 2 = 5 :=
  ⟨by decide,
    (bcd_spec (regChip 255 0 0) 0 (by decide) (by decide) (by decide)).1,
    (bcd_spec (regChip 255 0 0) 0 (by decide) (by decide) (by decide)).2.1,
    (bcd_spec (regChip 255 0 0) 0 (by decide) (by decide) (by decide)).2.2.1⟩

theorem sub8_one (t : Nat) (h0 : 0 < t) (ht : t < 256) : sub8 t 1 = t - 1 := by
  unfold sub8
  omega

/-- One timer tick on byte-valued timers. -/
theorem timer_tick_eq (s : Chip) (hd : s.delay_timer < 256) (hs : s.sound_timer < 256) :
    timer_tick s =
      { s with delay_timer := s.delay_timer - 1, sound_timer := s.sound_timer - 1 } := by
  obtain ⟨m, st, V, PC, SP, I, d, t, disp, ks, kp, nx⟩ := s
  simp only at hd hs
  by_cases h1 : d > 0 <;> by_cases h2 : t > 0
  · simp only [timer_tick, if_pos h1, if_pos h2, sub8_one _ h1 hd, sub8_one _ h2 hs]
  · have e2 : t = 0 := by omega
    subst e2
    simp only [timer_tick, if_pos h1, if_neg h2, sub8_one _ h1 hd]
  · have e1 : d = 0 := by omega
    subst e1
    simp only [timer_tick, if_neg h1, if_pos h2, sub8_one _ h2 hs]
  · have e1 : d = 0 := by omega
    have e2 : t = 0 := by omega
    subst e1 e2
    simp only [timer_tick, if_neg h1, if_neg h2]

/-- Any number of timer ticks on byte-valued timers. -/
theorem timer_tick_iterate (s : Chip) (hd : s.delay_timer < 256) (hs : s.sound_timer < 256)
    (k : Nat) :
    (timer_tick^[k] s).delay_timer = s.delay_timer - k ∧
    (timer_tick^[k] s).sound_timer = s.sound_timer - k := by
  induction k with
  | zero => exact ⟨rfl, rfl⟩
  | succ k ih =>
    rw [Function.iterate_succ_apply', timer_tick_eq _ (by omega) (by omega)]
    obtain ⟨h1, h2⟩ := ih
    constructor
    · show (timer_tick^[k] s).delay_timer - 1 = _
      omega
    · show (timer_tick^[k] s).sound_timer - 1 = _
      omega

/-- C19 (timer tick).  For byte-valued timers, one tick maps a timer t > 0 to
t - 1 and leaves t = 0 at 0, so no timer wraps below zero; after k ticks with
no write in between a timer that held t holds max (t - k) 0. -/
theorem timer_tick_spec (s : Chip) (hd : s.delay_timer < 256) (hs : s.sound_timer < 256) :
    (0 < s.delay_timer → (timer_tick s).delay_timer = s.delay_timer - 1) ∧
    (s.delay_timer = 0 → (timer_tick s).delay_timer = 0) ∧
    (0 < s.sound_timer → (timer_tick s).sound_timer = s.sound_timer - 1) ∧
    (s.sound_timer = 0 → (timer_tick s).sound_timer = 0) ∧
    (∀ k : Nat,
      (((timer_tick^[k] s).delay_timer : Nat) : Int) = max ((s.delay_timer : Int) - k) 0 ∧
      (((timer_tick^[k] s).sound_timer : Nat) : Int) = max ((s.sound_timer : Int) - k) 0) := by
  rw [timer_tick_eq s hd hs]
  refine ⟨fun _ => rfl, fun h => ?_, fun _ => rfl, fun h => ?_, fun k => ?_⟩
  · show s.delay_timer - 1 = 0
    omega
  · show s.sound_timer - 1 = 0
    omega
  · obtain ⟨h1, h2⟩ := timer_tick_iterate s hd hs k
    rw [h1, h2]
    omega

/-- Witness of C19: timers 3 and 1 become 2 and 0 after one tick, 0 and 0 after
five. -/
theorem timer_tick_spec_witness :
    ((timerChip 3 1).delay_timer < 256 ∧ (timerChip 3 1).sound_timer < 256) ∧
    (timer_tick (timerChip 3 1)).delay_timer = 2 ∧
    (timer_tick (timerChip 3 1)).sound_timer = 0 ∧
    (((timer_tick^[5] (timerChip 3 1)).delay_timer : Nat) : Int) = 0 ∧
    (((timer_tick^[5] (timerChip 3 1)).sound_timer : Nat) : Int) = 0 :=
  ⟨by decide,
    (timer_tick_spec (timerChip 3 1) (by decide) (by decide)).1 (by decide),
    (timer_tick_spec (timerChip 3 1) (by decide) (by decide)).2.2.1 (by decide),
    ((timer_tick_spec (timerChip 3 1) (by decide) (by decide)).2.2.2.2 5).1,
    ((timer_tick_spec (timerChip 3 1) (by decide) (by decide)).2.2.2.2 5).2⟩

/-! ## Register block transfer -/

/-- Dispatch of Fx55. -/
theorem util_chip_execute_Fx55 (x : Nat) (hx : x < 16) (s : Chip) :
    util_chip_execute (0xF055 + 256 * x) s = LDI x { s with PC := (s.PC + 2) % 65536 } := by
  rw [util_chip_execute_fields _ s 0xF ((0xF055 + 256 * x) % 4096) x 5 0x55 5
    (by omega) rfl (by omega) (by omega) (by omega) (by omega)]
  simp

/-- Dispatch of Fx65. -/
theorem util_chip_execute_Fx65 (x : Nat) (hx : x < 16) (s : Chip) :
    util_chip_execute (0xF065 + 256 * x) s = LD6 x { s with PC := (s.PC + 2) % 65536 } := by
  rw [util_chip_execute_fields _ s 0xF ((0xF065 + 256 * x) % 4096) x 6 0x65 5
    (by omega) rfl (by omega) (by omega) (by omega) (by omega)]
  simp

/-- The loop of `LDI` after `n` iterations, as long as I does not wrap. -/
theorem LDI_loop (n : Nat) (s : Chip) (h : s.I + n < 65536) :
    forUpTo n (fun i s =>
        let s := { s with memory := setAt s.memory s.I (s.V i) }
        { s with I := (s.I + 1) % 65536 }) s
      = { s with
          memory := fun j => if s.I ≤ j ∧ j < s.I + n then s.V (j - s.I) else s.memory j
          I := s.I + n } := by
  induction n with
  | zero =>
    rw [forUpTo_zero]
    have e : (fun j => if s.I ≤ j ∧ j < s.I + 0 then s.V (j - s.I) else s.memory j)
        = s.memory := by
      funext j
      rw [if_neg (by omega)]
    rw [e]
    rfl
  | succ n ih =>
    rw [forUpTo_succ, ih (by omega)]
    simp only [Chip.mk.injEq, true_and, and_true]
    refine ⟨?_, Nat.mod_eq_of_lt (by omega)⟩
    funext j
    simp only [setAt_apply]
    by_cases hj : j = s.I + n
    · subst hj
      rw [if_pos rfl, if_pos (by omega), Nat.add_sub_cancel_left]
    · rw [if_neg hj]
      by_cases hr : s.I ≤ j ∧ j < s.I + n
      · rw [if_pos hr, if_pos (by omega)]
      · rw [if_neg hr, if_neg (by omega)]

/-- The loop of `LD6` after `n` iterations, as long as I does not wrap. -/
theorem LD6_loop (n : Nat) (s : Chip) (h : s.I + n < 65536) :
    forUpTo n (fun i s =>
        let s := { s with V := setAt s.V i (s.memory s.I) }
        { s with I := (s.I + 1) % 65536 }) s
      = { s with
          V := fun i => if i < n then s.memory (s.I + i) else s.V i
          I := s.I + n } := by
  induction n with
  | zero =>
    rw [forUpTo_zero]
    rfl
  | succ n ih =>
    rw [forUpTo_succ, ih (by omega)]
    simp only [Chip.mk.injEq, true_and, and_true]
    refine ⟨?_, Nat.mod_eq_of_lt (by omega)⟩
    funext i
    simp only [setAt_apply]
    by_cases hi : i = n
    · subst hi
      rw [if_pos rfl, if_pos (by omega)]
    · rw [if_neg hi]
      by_cases hr : i < n
      · rw [if_pos hr, if_pos (by omega)]
      · rw [if_neg hr, if_neg (by omega)]

/-- C14 (store-regs, load-regs).  For x in 0..15 and I0 + x ≤ 0xFFF: Fx55 run
with I = I0 ends with I = I0 + x + 1; if then Fx65 with the same x runs in any
state that has the memory the store left and I = I0 again, whatever its
registers, it ends with V0..Vx equal to their values before the store and with
I = I0 + x + 1. -/
theorem store_load_roundtrip (s s2 : Chip) (x : Nat) (hx : x < 16) (hI : s.I + x ≤ 0xFFF)
    (hmem : s2.memory = (util_chip_execute (0xF055 + 256 * x) s).memory) (hI2 : s2.I = s.I) :
    (util_chip_execute (0xF055 + 256 * x) s).I = s.I + x + 1 ∧
    (util_chip_execute (0xF065 + 256 * x) s2).I = s.I + x + 1 ∧
    (∀ i, i ≤ x → (util_chip_execute (0xF065 + 256 * x) s2).V i = s.V i) := by
  rw [util_chip_execute_Fx55 x hx] at hmem ⊢
  rw [util_chip_execute_Fx65 x hx]
  have hst := LDI_loop (x + 1) { s with PC := (s.PC + 2) % 65536 }
    (by show s.I + (x + 1) < 65536; omega)
  have hld := LD6_loop (x + 1) { s2 with PC := (s2.PC + 2) % 65536 }
    (by show s2.I + (x + 1) < 65536; omega)
  unfold LDI at hmem ⊢
  unfold LD6
  rw [hst] at hmem ⊢
  rw [hld]
  refine ⟨rfl, ?_, ?_⟩
  · show s2.I + (x + 1) = s.I + x + 1
    omega
  · intro i hi
    show (if i < x + 1 then s2.memory (s2.I + i) else s2.V i) = s.V i
    rw [if_pos (by omega), hmem, hI2]
    show (if s.I ≤ s.I + i ∧ s.I + i < s.I + (x + 1) then s.V (s.I + i - s.I)
      else s.memory (s.I + i)) = s.V i
    rw [if_pos (by omega), Nat.add_sub_cancel_left]

/-- Witness of C14: V0 = 5, V1 = 6 are stored by F155 at I = 0, the registers
are then cleared and I set back to 0, and F165 brings 5 and 6 back. -/
theorem store_load_roundtrip_witness :
    (1 < 16 ∧ (regChip 5 6 0).I + 1 ≤ 0xFFF) ∧
    (util_chip_execute 0xF155 (regChip 5 6 0)).I = 2 ∧
    (util_chip_execute 0xF165
      { util_chip_execute 0xF155 (regChip 5 6 0) with V := fun _ => 0, I := 0 }).I = 2 ∧
    (∀ i, i ≤ 1 → (util_chip_execute 0xF165
      { util_chip_execute 0xF155 (regChip 5 6 0) with V := fun _ => 0, I := 0 }).V i
        = (regChip 5 6 0).V i) :=
  ⟨by decide, store_load_roundtrip (regChip 5 6 0)
    { util_chip_execute 0xF155 (regChip 5 6 0) with V := fun _ => 0, I := 0 } 1
    (by decide) (by decide) rfl rfl⟩

/-! ## Unrecognised opcodes -/

/-- C15 (unrecognised sub-opcodes).  For every opcode whose sub-opcode its
family does not list, `util_chip_execute` returns the state it was given with
PC advanced by 2 (in the 16-bit program counter) and nothing else changed:
memory, registers, I, stack, SP, timers, display, keypad and PRNG state. -/
theorem unrecognised_noop (op : Nat) (s : Chip) (h : unrecognised op) :
    util_chip_execute op s = { s with PC := (s.PC + 2) % 65536 } := by
  rw [util_chip_execute_fields op s _ _ _ _ _ _ rfl rfl rfl rfl rfl rfl]
  rcases h with ⟨hf, hn⟩ | ⟨hf, hn⟩ | ⟨hf, hn⟩ | ⟨hf, h1, h2⟩ |
    ⟨hf, h1, h2, h3, h4, h5, h6, h7, h8, h9⟩
  · simp [hf, hn]
  · simp [hf, hn]
  · rcases hn with hn | hn | hn | hn | hn | hn | hn <;> simp [hf, hn]
  · simp [hf, h1, h2]
  · simp [hf, h1, h2, h3, h4, h5, h6, h7, h8, h9]

/-- Witness of C15: the opcodes 5121, 800F, E000 and F0FF only advance PC. -/
theorem unrecognised_noop_witness :
    (unrecognised 0x5121 ∧ unrecognised 0x800F ∧ unrecognised 0xE000 ∧ unrecognised 0xF0FF) ∧
    util_chip_execute 0x5121 (regChip 1 2 3) = { regChip 1 2 3 with PC := 0x202 } ∧
    util_chip_execute 0x800F (regChip 1 2 3) = { regChip 1 2 3 with PC := 0x202 } ∧
    util_chip_execute 0xE000 (regChip 1 2 3) = { regChip 1 2 3 with PC := 0x202 } ∧
    util_chip_execute 0xF0FF (regChip 1 2 3) = { regChip 1 2 3 with PC := 0x202 } :=
  ⟨by decide, unrecognised_noop 0x5121 (regChip 1 2 3) (by decide),
    unrecognised_noop 0x800F (regChip 1 2 3) (by decide),
    unrecognised_noop 0xE000 (regChip 1 2 3) (by decide),
    unrecognised_noop 0xF0FF (regChip 1 2 3) (by decide)⟩

/-! ## Waiting for a key -/

/-- Dispatch of Fx0A. -/
theorem util_chip_execute_Fx0A (x : Nat) (hx : x < 16) (s : Chip) :
    util_chip_execute (0xF00A + 256 * x) s = LD5 x { s with PC := (s.PC + 2) % 65536 } := by
  rw [util_chip_execute_fields _ s 0xF ((0xF00A + 256 * x) % 4096) x 0 0x0A 0xA
    (by omega) rfl (by omega) (by omega) (by omega) (by omega)]
  simp

/-- The key scan when no key in its range has a rising edge. -/
theorem LD5_scan_none (reg : Nat) :
    ∀ (k i : Nat) (s : Chip), (∀ j, i ≤ j → j < i + k → ¬ risingEdge s j) →
      LD5_scan reg k i s = { s with PC := sub16 s.PC 2 } := by
  intro k
  induction k with
  | zero => intro i s _; rfl
  | succ k ih =>
    intro i s h
    unfold LD5_scan
    have hi : ¬ (s.key_state i ≠ 0 ∧ s.key_prev i = 0) := h i (le_refl i) (by omega)
    rw [if_neg hi]
    exact ih (i + 1) s (fun j h1 h2 => h j (by omega) (by omega))

/-- The key scan when `m` is the first key in its range with a rising edge. -/
theorem LD5_scan_first (reg m : Nat) :
    ∀ (k i : Nat) (s : Chip), i ≤ m → m < i + k → risingEdge s m →
      (∀ j, i ≤ j → j < m → ¬ risingEdge s j) →
      LD5_scan reg k i s = { s with V := setAt s.V reg m } := by
  intro k
  induction k with
  | zero => intro i s h1 h2; omega
  | succ k ih =>
    intro i s h1 h2 hm hmin
    unfold LD5_scan
    by_cases him : i = m
    · subst him
      have hi : s.key_state i ≠ 0 ∧ s.key_prev i = 0 := hm
      rw [if_pos hi]
    · have hi : ¬ (s.key_state i ≠ 0 ∧ s.key_prev i = 0) := hmin i (le_refl i) (by omega)
      rw [if_neg hi]
      exact ih (i + 1) s (by omega) (by omega) hm (fun j h3 h4 => hmin j (by omega) h4)

theorem sub16_advance (p : Nat) (hp : p < 65536) : sub16 ((p + 2) % 65536) 2 = p := by
  unfold sub16
  omega

/-- The waiting case of Fx0A: Vx is cleared and PC is back where it was. -/
theorem wait_key_execute (s : Chip) (x : Nat) (hx : x < 16) (hpc : s.PC < 65536)
    (hno : ∀ k, k < 16 → ¬ risingEdge s k) :
    util_chip_execute (0xF00A + 256 * x) s = { s with V := setAt s.V x 0 } := by
  rw [util_chip_execute_Fx0A x hx]
  refine (LD5_scan_none x 16 0 { s with PC := (s.PC + 2) % 65536, V := setAt s.V x 0 }
    (fun j _ h2 => hno j (by omega))).trans ?_
  show ({ s with PC := sub16 ((s.PC + 2) % 65536) 2, V := setAt s.V x 0 } : Chip) = _
  rw [sub16_advance s.PC hpc]

/-- C12 (wait-key, waiting).  When no key 0..15 has a rising edge, executing
Fx0A leaves PC where it was; if the opcode was fetched at PC, the step leaves
PC unchanged and the same opcode is fetched next; and this stays so over any
number of steps between which the host rewrites the keypad arrays, as long as
no key shows a rising edge at any of them. -/
theorem wait_key_waits (s : Chip) (x : Nat) (hx : x < 16) (hpc : s.PC < 65536)
    (hno : ∀ k, k < 16 → ¬ risingEdge s k) :
    (util_chip_execute (0xF00A + 256 * x) s).PC = s.PC ∧
    (fetch s = 0xF00A + 256 * x →
      (step s).PC = s.PC ∧ fetch (step s) = 0xF00A + 256 * x) ∧
    (fetch s = 0xF00A + 256 * x →
      ∀ keys : List ((Nat → Nat) × (Nat → Nat)),
        (∀ kp, kp ∈ keys → ∀ k, k < 16 → ¬ risingEdge (setKeys kp s) k) →
        (runWithKeys keys s).PC = s.PC ∧ fetch (runWithKeys keys s) = 0xF00A + 256 * x) := by
  refine ⟨?_, ?_, ?_⟩
  · rw [wait_key_execute s x hx hpc hno]
  · intro hf
    unfold step
    rw [hf, wait_key_execute s x hx hpc hno]
    exact ⟨rfl, hf⟩
  · intro hf keys
    clear hno
    induction keys generalizing s with
    | nil => intro _; exact ⟨rfl, hf⟩
    | cons kp rest ih =>
      intro hall
      have h1 : ∀ k, k < 16 → ¬ risingEdge (setKeys kp s) k :=
        hall kp (List.mem_cons_self kp rest)
      have hstep : step (setKeys kp s) = { setKeys kp s with V := setAt s.V x 0 } := by
        unfold step
        rw [show fetch (setKeys kp s) = 0xF00A + 256 * x from hf]
        exact wait_key_execute (setKeys kp s) x hx hpc h1
      have hrec := ih (step (setKeys kp s)) (by rw [hstep]; exact hpc)
        (by rw [hstep]; exact hf)
        (fun kp2 hkp2 k hk => by
          have := hall kp2 (List.mem_cons_of_mem kp hkp2) k hk
          exact this)
      show (runWithKeys rest (step (setKeys kp s))).PC = s.PC ∧
        fetch (runWithKeys rest (step (setKeys kp s))) = 0xF00A + 256 * x
      rw [hrec.1, hrec.2, hstep]
      exact ⟨rfl, rfl⟩

/-- Witness of C12: with no key held, F00A at PC = 0x200 is fetched again after
one step and after three steps with idle keypads. -/
theorem wait_key_waits_witness :
    (0 < 16 ∧ (waitChip 7 (fun _ => 0) (fun _ => 0)).PC < 65536 ∧
      ∀ k, k < 16 → ¬ risingEdge (waitChip 7 (fun _ => 0) (fun _ => 0)) k) ∧
    (step (waitChip 7 (fun _ => 0) (fun _ => 0))).PC = 0x200 ∧
    fetch (step (waitChip 7 (fun _ => 0) (fun _ => 0))) = 0xF00A ∧
    (runWithKeys [(fun _ => 0, fun _ => 0), (fun _ => 1, fun _ => 1), (fun _ => 0, fun _ => 1)]
      (waitChip 7 (fun _ => 0) (fun _ => 0))).PC = 0x200 := by
  have hno : ∀ k, k < 16 → ¬ risingEdge (waitChip 7 (fun _ => 0) (fun _ => 0)) k :=
    fun k _ h => h.1 rfl
  have h := wait_key_waits (waitChip 7 (fun _ => 0) (fun _ => 0)) 0 (by decide) (by decide) hno
  refine ⟨⟨by decide, by decide, hno⟩, (h.2.1 rfl).1, (h.2.1 rfl).2, ?_⟩
  refine (h.2.2 rfl _ ?_).1
  intro kp hkp k _ hedge
  simp only [List.mem_cons, List.mem_singleton, List.not_mem_nil, or_false] at hkp
  rcases hkp with rfl | rfl | rfl
  · exact hedge.1 rfl
  · exact Nat.one_ne_zero hedge.2
  · exact hedge.1 rfl

/-- C13 (wait-key, key pressed).  When some key 0..15 has a rising edge,
executing Fx0A stores in Vx the lowest-numbered such key and leaves PC advanced
by 2: PC + 2 in the 16-bit program counter, which is PC + 2 exactly whenever
that fits 16 bits. -/
theorem wait_key_edge (s : Chip) (x : Nat) (hx : x < 16)
    (hex : ∃ k, k < 16 ∧ risingEdge s k) :
    ∃ k, k < 16 ∧ risingEdge s k ∧ (∀ j, j < k → ¬ risingEdge s j) ∧
      (util_chip_execute (0xF00A + 256 * x) s).V x = k ∧
      (util_chip_execute (0xF00A + 256 * x) s).PC = (s.PC + 2) % 65536 ∧
      (s.PC + 2 < 65536 → (util_chip_execute (0xF00A + 256 * x) s).PC = s.PC + 2) := by
  have hk := Nat.find_spec hex
  have hmin : ∀ j, j < Nat.find hex → ¬ risingEdge s j := by
    intro j hj hedge
    exact Nat.find_min hex hj ⟨by omega, hedge⟩
  have hrun : util_chip_execute (0xF00A + 256 * x) s
      = { s with PC := (s.PC + 2) % 65536, V := setAt (setAt s.V x 0) x (Nat.find hex) } := by
    rw [util_chip_execute_Fx0A x hx]
    exact LD5_scan_first x (Nat.find hex) 16 0
      { s with PC := (s.PC + 2) % 65536, V := setAt s.V x 0 } (Nat.zero_le _) (by omega) hk.2
      (fun j _ h2 => hmin j h2)
  refine ⟨Nat.find hex, hk.1, hk.2, hmin, ?_, ?_, ?_⟩
  · rw [hrun]
    exact setAt_same _ _ _
  · rw [hrun]
  · intro hpc
    rw [hrun]
    exact Nat.mod_eq_of_lt hpc

/-- Witness of C13: with keys 3 and 9 newly held, F00A at PC = 0x200 stores 3
in V0 and ends at PC = 0x202. -/
theorem wait_key_edge_witness :
    (0 < 16 ∧ ∃ k, k < 16 ∧
      risingEdge (waitChip 7 (setAt (setAt (fun _ => 0) 3 1) 9 1) (fun _ => 0)) k) ∧
    (util_chip_execute 0xF00A
      (waitChip 7 (setAt (setAt (fun _ => 0) 3 1) 9 1) (fun _ => 0))).V 0 = 3 ∧
    (util_chip_execute 0xF00A
      (waitChip 7 (setAt (setAt (fun _ => 0) 3 1) 9 1) (fun _ => 0))).PC = 0x202 := by
  have hex : ∃ k, k < 16 ∧
      risingEdge (waitChip 7 (setAt (setAt (fun _ => 0) 3 1) 9 1) (fun _ => 0)) k :=
    ⟨3, by decide, by decide⟩
  obtain ⟨k, _, hedge, hmin, hV, hPC, _⟩ :=
    wait_key_edge (waitChip 7 (setAt (setAt (fun _ => 0) 3 1) 9 1) (fun _ => 0)) 0
      (by decide) hex
  have hk3 : k = 3 := by
    have h1 : ¬ 3 < k := fun h => hmin 3 h (by decide)
    have h2 : k ≤ 3 := by omega
    interval_cases k
    · exact absurd hedge (by decide)
    · exact absurd hedge (by decide)
    · exact absurd hedge (by decide)
    · rfl
  subst hk3
  exact ⟨⟨by decide, hex⟩, hV, hPC⟩

/-! ## Loading a program -/

/-- A loop storing `g i` into `memory[base + i]` for `i < n`. -/
theorem forUpTo_memory_at (g : Nat → Nat) (base n : Nat) (s : Chip) :
    forUpTo n (fun i s => { s with memory := setAt s.memory (base + i) (g i) }) s
      = { s with memory := fun j =>
            if base ≤ j ∧ j < base + n then g (j - base) else s.memory j } := by
  induction n with
  | zero =>
    rw [forUpTo_zero]
    have e : (fun j => if base ≤ j ∧ j < base + 0 then g (j - base) else s.memory j)
        = s.memory := by
      funext j
      rw [if_neg (by omega)]
    rw [e]
  | succ k ih =>
    rw [forUpTo_succ, ih]
    simp only [Chip.mk.injEq, and_true, true_and]
    funext j
    simp only [setAt_apply]
    by_cases hj : j = base + k
    · subst hj
      rw [if_pos rfl, if_pos (by omega), Nat.add_sub_cancel_left]
    · rw [if_neg hj]
      by_cases hr : base ≤ j ∧ j < base + k
      · rw [if_pos hr, if_pos (by omega)]
      · rw [if_neg hr, if_neg (by omega)]

/-- The state `util_chip_load_ROM` leaves when the file opens, in closed form. -/
theorem util_chip_load_ROM_eq (bytes : List Nat) (s : Chip) :
    util_chip_load_ROM (some bytes) s =
      (0, { s with memory := fun j =>
              if 0x200 ≤ j ∧ j < 0x200 + min bytes.length 0x1000
              then bytes.getD (j - 0x200) 0 else s.memory j }) := by
  unfold util_chip_load_ROM
  simp only [forUpTo_memory_at (fun i => bytes.getD i 0)]

/-- An image of more than 0xE00 equal bytes reaches memory index 0x1000. -/
theorem util_chip_load_ROM_past_end (n v : Nat) (s : Chip) (h : 0xE00 < n) :
    (util_chip_load_ROM (some (List.replicate n v)) s).2.memory 0x1000 = v := by
  rw [util_chip_load_ROM_eq]
  show (if 0x200 ≤ 0x1000 ∧ 0x1000 < 0x200 + min (List.replicate n v).length 0x1000
    then (List.replicate n v).getD (0x1000 - 0x200) 0 else s.memory 0x1000) = v
  rw [List.length_replicate, if_pos (by omega), List.getD_eq_getElem?_getD,
    List.getElem?_replicate, if_pos (by omega)]
  rfl

/-- C16 (program too large), evaluated on the code.  Whatever the length of a
readable image, `util_chip_load_ROM` returns 0, and it stores byte i of the
image at memory[0x200 + i] for every i below the length and below 0x1000; an
image of 3585 bytes therefore reports no error and has its last byte stored at
index 0x1000, outside memory[0x200..0xFFF]. -/
theorem util_chip_load_ROM_no_size_check (bytes : List Nat) (s : Chip) :
    (util_chip_load_ROM (some bytes) s).1 = 0 ∧
    (∀ i, i < bytes.length → i < 0x1000 →
      (util_chip_load_ROM (some bytes) s).2.memory (0x200 + i) = bytes.getD i 0) ∧
    ((List.replicate 3585 0xFF).length > 4096 - 0x200 ∧
      (util_chip_load_ROM (some (List.replicate 3585 0xFF)) zeroChip).1 = 0 ∧
      zeroChip.memory 0x1000 = 0 ∧
      (util_chip_load_ROM (some (List.replicate 3585 0xFF)) zeroChip).2.memory 0x1000
        = 0xFF) := by
  refine ⟨?_, ?_, ?_, ?_, rfl, ?_⟩
  · rw [util_chip_load_ROM_eq]
  · intro i h1 h2
    rw [util_chip_load_ROM_eq]
    show (if 0x200 ≤ 0x200 + i ∧ 0x200 + i < 0x200 + min bytes.length 0x1000
      then bytes.getD (0x200 + i - 0x200) 0 else s.memory (0x200 + i)) = bytes.getD i 0
    rw [if_pos (by omega), Nat.add_sub_cancel_left]
  · rw [List.length_replicate]
    decide
  · rw [util_chip_load_ROM_eq]
  · exact util_chip_load_ROM_past_end 3585 0xFF zeroChip (by decide)

/-! ## The dispatcher, family by family -/

/-- The dispatcher on the opcodes of family 0. -/
theorem util_chip_execute_fam0 (op : Nat) (s : Chip) (h : op / 4096 % 16 = 0x0) :
    util_chip_execute op s =
      (if op % 4096 = 0x0E0 then CLS { s with PC := (s.PC + 2) % 65536 }
        else if op % 4096 = 0x0EE then RET { s with PC := (s.PC + 2) % 65536 }
        else SYS (op % 4096) { s with PC := (s.PC + 2) % 65536 }) := by
  rw [util_chip_execute_fields op s 0x0 _ _ _ _ _ h rfl rfl rfl rfl rfl]
  simp

/-- The dispatcher on the opcodes of family 1. -/
theorem util_chip_execute_fam1 (op : Nat) (s : Chip) (h : op / 4096 % 16 = 0x1) :
    util_chip_execute op s =
      (JP (op % 4096) { s with PC := (s.PC + 2) % 65536 }) := by
  rw [util_chip_execute_fields op s 0x1 _ _ _ _ _ h rfl rfl rfl rfl rfl]
  simp

/-- The dispatcher on the opcodes of family 2. -/
theorem util_chip_execute_fam2 (op : Nat) (s : Chip) (h : op / 4096 % 16 = 0x2) :
    util_chip_execute op s =
      (CALL (op % 4096) { s with PC := (s.PC + 2) % 65536 }) := by
  rw [util_chip_execute_fields op s 0x2 _ _ _ _ _ h rfl rfl rfl rfl rfl]
  simp

/-- The dispatcher on the opcodes of family 3. -/
theorem util_chip_execute_fam3 (op : Nat) (s : Chip) (h : op / 4096 % 16 = 0x3) :
    util_chip_execute op s =
      (SE (op / 256 % 16) (op % 256) { s with PC := (s.PC + 2) % 65536 }) := by
  rw [util_chip_execute_fields op s 0x3 _ _ _ _ _ h rfl rfl rfl rfl rfl]
  simp

/-- The dispatcher on the opcodes of family 4. -/
theorem util_chip_execute_fam4 (op : Nat) (s : Chip) (h : op / 4096 % 16 = 0x4) :
    util_chip_execute op s =
      (SNE (op / 256 % 16) (op % 256) { s with PC := (s.PC + 2) % 65536 }) := by
  rw [util_chip_execute_fields op s 0x4 _ _ _ _ _ h rfl rfl rfl rfl rfl]
  simp

/-- The dispatcher on the opcodes of family 5. -/
theorem util_chip_execute_fam5 (op : Nat) (s : Chip) (h : op / 4096 % 16 = 0x5) :
    util_chip_execute op s =
      (if op % 16 = 0 then SE2 (op / 256 % 16) (op / 16 % 16) { s with PC := (s.PC + 2) % 65536 }
        else { s with PC := (s.PC + 2) % 65536 }) := by
  rw [util_chip_execute_fields op s 0x5 _ _ _ _ _ h rfl rfl rfl rfl rfl]
  simp

/-- The dispatcher on the opcodes of family 6. -/
theorem util_chip_execute_fam6 (op : Nat) (s : Chip) (h : op / 4096 % 16 = 0x6) :
    util_chip_execute op s =
      (LD (op / 256 % 16) (op % 256) { s with PC := (s.PC + 2) % 65536 }) := by
  rw [util_chip_execute_fields op s 0x6 _ _ _ _ _ h rfl rfl rfl rfl rfl]
  simp

/-- The dispatcher on the opcodes of family 7. -/
theorem util_chip_execute_fam7 (op : Nat) (s : Chip) (h : op / 4096 % 16 = 0x7) :
    util_chip_execute op s =
      (ADD (op / 256 % 16) (op % 256) { s with PC := (s.PC + 2) % 65536 }) := by
  rw [util_chip_execute_fields op s 0x7 _ _ _ _ _ h rfl rfl rfl rfl rfl]
  simp

/-- The dispatcher on the opcodes of family 8. -/
theorem util_chip_execute_fam8 (op : Nat) (s : Chip) (h : op / 4096 % 16 = 0x8) :
    util_chip_execute op s =
      (if op % 16 = 0x0 then LD2 (op / 256 % 16) (op / 16 % 16) { s with PC := (s.PC + 2) % 65536 }
        else if op % 16 = 0x1 then OR (op / 256 % 16) (op / 16 % 16) { s with PC := (s.PC + 2) % 65536 }
        else if op % 16 = 0x2 then AND (op / 256 % 16) (op / 16 % 16) { s with PC := (s.PC + 2) % 65536 }
        else if op % 16 = 0x3 then XOR (op / 256 % 16) (op / 16 % 16) { s with PC := (s.PC + 2) % 65536 }
        else if op % 16 = 0x4 then ADD2 (op / 256 % 16) (op / 16 % 16) { s with PC := (s.PC + 2) % 65536 }
        else if op % 16 = 0x5 then SUB (op / 256 % 16) (op / 16 % 16) { s with PC := (s.PC + 2) % 65536 }
        else if op % 16 = 0x6 then SHR (op / 256 % 16) (op / 16 % 16) { s with PC := (s.PC + 2) % 65536 }
        else if op % 16 = 0x7 then SUBN (op / 256 % 16) (op / 16 % 16) { s with PC := (s.PC + 2) % 65536 }
        else if op % 16 = 0xE then SHL (op / 256 % 16) (op / 16 % 16) { s with PC := (s.PC + 2) % 65536 }
        else { s with PC := (s.PC + 2) % 65536 }) := by
  rw [util_chip_execute_fields op s 0x8 _ _ _ _ _ h rfl rfl rfl rfl rfl]
  simp

/-- The dispatcher on the opcodes of family 9. -/
theorem util_chip_execute_fam9 (op : Nat) (s : Chip) (h : op / 4096 % 16 = 0x9) :
    util_chip_execute op s =
      (if op % 16 = 0 then SNE2 (op / 256 % 16) (op / 16 % 16) { s with PC := (s.PC + 2) % 65536 }
        else { s with PC := (s.PC + 2) % 65536 }) := by
  rw [util_chip_execute_fields op s 0x9 _ _ _ _ _ h rfl rfl rfl rfl rfl]
  simp

/-- The dispatcher on the opcodes of family A. -/
theorem util_chip_execute_famA (op : Nat) (s : Chip) (h : op / 4096 % 16 = 0xA) :
    util_chip_execute op s =
      (LD3 (op % 4096) { s with PC := (s.PC + 2) % 65536 }) := by
  rw [util_chip_execute_fields op s 0xA _ _ _ _ _ h rfl rfl rfl rfl rfl]
  simp

/-- The dispatcher on the opcodes of family B. -/
theorem util_chip_execute_famB (op : Nat) (s : Chip) (h : op / 4096 % 16 = 0xB) :
    util_chip_execute op s =
      (JP2 (op % 4096) { s with PC := (s.PC + 2) % 65536 }) := by
  rw [util_chip_execute_fields op s 0xB _ _ _ _ _ h rfl rfl rfl rfl rfl]
  simp

/-- The dispatcher on the opcodes of family C. -/
theorem util_chip_execute_famC (op : Nat) (s : Chip) (h : op / 4096 % 16 = 0xC) :
    util_chip_execute op s =
      (RND (op / 256 % 16) (op % 256) { s with PC := (s.PC + 2) % 65536 }) := by
  rw [util_chip_execute_fields op s 0xC _ _ _ _ _ h rfl rfl rfl rfl rfl]
  simp

/-- The dispatcher on the opcodes of family D. -/
theorem util_chip_execute_famD (op : Nat) (s : Chip) (h : op / 4096 % 16 = 0xD) :
    util_chip_execute op s =
      (DRW (op / 256 % 16) (op / 16 % 16) (op % 16) { s with PC := (s.PC + 2) % 65536 }) := by
  rw [util_chip_execute_fields op s 0xD _ _ _ _ _ h rfl rfl rfl rfl rfl]
  simp

/-- The dispatcher on the opcodes of family E. -/
theorem util_chip_execute_famE (op : Nat) (s : Chip) (h : op / 4096 % 16 = 0xE) :
    util_chip_execute op s =
      (if op % 256 = 0x9E then SKP (op / 256 % 16) { s with PC := (s.PC + 2) % 65536 }
        else if op % 256 = 0xA1 then SKNP (op / 256 % 16) { s with PC := (s.PC + 2) % 65536 }
        else { s with PC := (s.PC + 2) % 65536 }) := by
  rw [util_chip_execute_fields op s 0xE _ _ _ _ _ h rfl rfl rfl rfl rfl]
  simp

/-- The dispatcher on the opcodes of family F. -/
theorem util_chip_execute_famF (op : Nat) (s : Chip) (h : op / 4096 % 16 = 0xF) :
    util_chip_execute op s =
      (if op % 256 = 0x07 then LD4 (op / 256 % 16) { s with PC := (s.PC + 2) % 65536 }
        else if op % 256 = 0x0A then LD5 (op / 256 % 16) { s with PC := (s.PC + 2) % 65536 }
        else if op % 256 = 0x15 then LDDT (op / 256 % 16) { s with PC := (s.PC + 2) % 65536 }
        else if op % 256 = 0x18 then LDST (op / 256 % 16) { s with PC := (s.PC + 2) % 65536 }
        else if op % 256 = 0x1E then ADDI (op / 256 % 16) { s with PC := (s.PC + 2) % 65536 }
        else if op % 256 = 0x29 then LDF (op / 256 % 16) { s with PC := (s.PC + 2) % 65536 }
        else if op % 256 = 0x33 then LDB (op / 256 % 16) { s with PC := (s.PC + 2) % 65536 }
        else if op % 256 = 0x55 then LDI (op / 256 % 16) { s with PC := (s.PC + 2) % 65536 }
        else if op % 256 = 0x65 then LD6 (op / 256 % 16) { s with PC := (s.PC + 2) % 65536 }
        else { s with PC := (s.PC + 2) % 65536 }) := by
  rw [util_chip_execute_fields op s 0xF _ _ _ _ _ h rfl rfl rfl rfl rfl]
  simp

/-! ## The stack pointer -/

/-- A loop keeps what each of its iterations keeps. -/
theorem forUpTo_invariant {σ : Type} (P : σ → Prop) (body : Nat → σ → σ)
    (hbody : ∀ i t, P t → P (body i t)) (n : Nat) (s : σ) (h : P s) :
    P (forUpTo n body s) := by
  induction n with
  | zero => exact h
  | succ k ih => exact hbody k _ ih

theorem CLS_SP (s : Chip) : (CLS s).SP = s.SP := by
  unfold CLS
  rw [forUpTo_display]

theorem DRW_cols_SP (vx vy y row : Nat) :
    ∀ (k x : Nat) (s : Chip), (DRW_cols vx vy y row k x s).SP = s.SP := by
  intro k
  induction k with
  | zero => intro x s; rfl
  | succ k ih =>
    intro x s
    unfold DRW_cols
    split_ifs
    · rfl
    · rw [ih, DRW_pixel_eq]

theorem DRW_SP (x y n : Nat) (s : Chip) : (DRW x y n s).SP = s.SP := by
  unfold DRW
  split_ifs
  · rfl
  · refine forUpTo_invariant (fun t : Chip => t.SP = s.SP) _ ?_ n _ rfl
    intro i t ht
    rw [DRW_cols_SP]
    exact ht

theorem LD5_scan_SP (reg : Nat) :
    ∀ (k i : Nat) (s : Chip), (LD5_scan reg k i s).SP = s.SP := by
  intro k
  induction k with
  | zero => intro i s; rfl
  | succ k ih =>
    intro i s
    unfold LD5_scan
    split_ifs
    · rfl
    · exact ih (i + 1) s

theorem LD5_SP (reg : Nat) (s : Chip) : (LD5 reg s).SP = s.SP := by
  unfold LD5
  rw [LD5_scan_SP]

theorem LDI_SP (reg : Nat) (s : Chip) : (LDI reg s).SP = s.SP := by
  unfold LDI
  refine forUpTo_invariant (fun t : Chip => t.SP = s.SP) _ ?_ (reg + 1) s rfl
  intro i t ht
  exact ht

theorem LD6_SP (reg : Nat) (s : Chip) : (LD6 reg s).SP = s.SP := by
  unfold LD6
  refine forUpTo_invariant (fun t : Chip => t.SP = s.SP) _ ?_ (reg + 1) s rfl
  intro i t ht
  exact ht


theorem SE_SP (r v : Nat) (s : Chip) : (SE r v s).SP = s.SP := by
  unfold SE
  split_ifs <;> rfl

theorem SNE_SP (r v : Nat) (s : Chip) : (SNE r v s).SP = s.SP := by
  unfold SNE
  split_ifs <;> rfl

theorem SE2_SP (r v : Nat) (s : Chip) : (SE2 r v s).SP = s.SP := by
  unfold SE2
  split_ifs <;> rfl

theorem SNE2_SP (r v : Nat) (s : Chip) : (SNE2 r v s).SP = s.SP := by
  unfold SNE2
  split_ifs <;> rfl

theorem SKP_SP (r : Nat) (s : Chip) : (SKP r s).SP = s.SP := by
  unfold SKP
  split_ifs <;> rfl

theorem SKNP_SP (r : Nat) (s : Chip) : (SKNP r s).SP = s.SP := by
  unfold SKNP
  split_ifs <;> rfl

/-- A property of both branches holds of the conditional. -/
theorem ite_cases {α : Type} (P : α → Prop) (c : Prop) [Decidable c] (a b : α)
    (ha : c → P a) (hb : ¬ c → P b) : P (if c then a else b) := by
  split_ifs with h
  · exact ha h
  · exact hb h

/-- The stack pointer after any opcode: a call increments it, the return
decrements it, both in 8 bits, and no other opcode touches it. -/
theorem util_chip_execute_SP (op : Nat) (s : Chip) :
    (util_chip_execute op s).SP =
      if isCall op then (s.SP + 1) % 256
      else if isReturn op then sub8 s.SP 1
      else s.SP := by
  by_cases hc : isCall op
  · rw [if_pos hc, util_chip_execute_fam2 op s hc]
    rfl
  · rw [if_neg hc]
    by_cases hr : isReturn op
    · rw [if_pos hr, util_chip_execute_fam0 op s hr.1, if_neg (by rw [hr.2]; decide),
        if_pos hr.2]
      rfl
    · rw [if_neg hr]
      unfold isCall at hc
      unfold isReturn at hr
      have hf : op / 4096 % 16 = 0x0 ∨ op / 4096 % 16 = 0x1 ∨ op / 4096 % 16 = 0x3 ∨
          op / 4096 % 16 = 0x4 ∨ op / 4096 % 16 = 0x5 ∨ op / 4096 % 16 = 0x6 ∨
          op / 4096 % 16 = 0x7 ∨ op / 4096 % 16 = 0x8 ∨ op / 4096 % 16 = 0x9 ∨
          op / 4096 % 16 = 0xA ∨ op / 4096 % 16 = 0xB ∨ op / 4096 % 16 = 0xC ∨
          op / 4096 % 16 = 0xD ∨ op / 4096 % 16 = 0xE ∨ op / 4096 % 16 = 0xF := by omega
      rcases hf with h | h | h | h | h | h | h | h | h | h | h | h | h | h | h
      · rw [util_chip_execute_fam0 op s h]
        refine ite_cases (fun r : Chip => r.SP = s.SP) _ _ _ (fun _ => CLS_SP _) (fun _ => ?_)
        refine ite_cases (fun r : Chip => r.SP = s.SP) _ _ _ (fun h2 => absurd ⟨h, h2⟩ hr)
          (fun _ => rfl)
      · rw [util_chip_execute_fam1 op s h]
        rfl
      · rw [util_chip_execute_fam3 op s h]
        exact SE_SP _ _ _
      · rw [util_chip_execute_fam4 op s h]
        exact SNE_SP _ _ _
      · rw [util_chip_execute_fam5 op s h]
        exact ite_cases (fun r : Chip => r.SP = s.SP) _ _ _ (fun _ => SE2_SP _ _ _)
          (fun _ => rfl)
      · rw [util_chip_execute_fam6 op s h]
        rfl
      · rw [util_chip_execute_fam7 op s h]
        rfl
      · rw [util_chip_execute_fam8 op s h]
        refine ite_cases (fun r : Chip => r.SP = s.SP) _ _ _ (fun _ => rfl) (fun _ => ?_)
        refine ite_cases (fun r : Chip => r.SP = s.SP) _ _ _ (fun _ => rfl) (fun _ => ?_)
        refine ite_cases (fun r : Chip => r.SP = s.SP) _ _ _ (fun _ => rfl) (fun _ => ?_)
        refine ite_cases (fun r : Chip => r.SP = s.SP) _ _ _ (fun _ => rfl) (fun _ => ?_)
        refine ite_cases (fun r : Chip => r.SP = s.SP) _ _ _ (fun _ => rfl) (fun _ => ?_)
        refine ite_cases (fun r : Chip => r.SP = s.SP) _ _ _ (fun _ => rfl) (fun _ => ?_)
        refine ite_cases (fun r : Chip => r.SP = s.SP) _ _ _ (fun _ => rfl) (fun _ => ?_)
        refine ite_cases (fun r : Chip => r.SP = s.SP) _ _ _ (fun _ => rfl) (fun _ => ?_)
        exact ite_cases (fun r : Chip => r.SP = s.SP) _ _ _ (fun _ => rfl) (fun _ => rfl)
      · rw [util_chip_execute_fam9 op s h]
        exact ite_cases (fun r : Chip => r.SP = s.SP) _ _ _ (fun _ => SNE2_SP _ _ _)
          (fun _ => rfl)
      · rw [util_chip_execute_famA op s h]
        rfl
      · rw [util_chip_execute_famB op s h]
        rfl
      · rw [util_chip_execute_famC op s h]
        rfl
      · rw [util_chip_execute_famD op s h]
        exact DRW_SP _ _ _ _
      · rw [util_chip_execute_famE op s h]
        refine ite_cases (fun r : Chip => r.SP = s.SP) _ _ _ (fun _ => SKP_SP _ _) (fun _ => ?_)
        exact ite_cases (fun r : Chip => r.SP = s.SP) _ _ _ (fun _ => SKNP_SP _ _)
          (fun _ => rfl)
      · rw [util_chip_execute_famF op s h]
        refine ite_cases (fun r : Chip => r.SP = s.SP) _ _ _ (fun _ => rfl) (fun _ => ?_)
        refine ite_cases (fun r : Chip => r.SP = s.SP) _ _ _ (fun _ => LD5_SP _ _) (fun _ => ?_)
        refine ite_cases (fun r : Chip => r.SP = s.SP) _ _ _ (fun _ => rfl) (fun _ => ?_)
        refine ite_cases (fun r : Chip => r.SP = s.SP) _ _ _ (fun _ => rfl) (fun _ => ?_)
        refine ite_cases (fun r : Chip => r.SP = s.SP) _ _ _ (fun _ => rfl) (fun _ => ?_)
        refine ite_cases (fun r : Chip => r.SP = s.SP) _ _ _ (fun _ => rfl) (fun _ => ?_)
        refine ite_cases (fun r : Chip => r.SP = s.SP) _ _ _ (fun _ => rfl) (fun _ => ?_)
        refine ite_cases (fun r : Chip => r.SP = s.SP) _ _ _ (fun _ => LDI_SP _ _) (fun _ => ?_)
        exact ite_cases (fun r : Chip => r.SP = s.SP) _ _ _ (fun _ => LD6_SP _ _) (fun _ => rfl)

/-- The state `util_chip_reset` leaves when the file opens, in closed form. -/
theorem util_chip_reset_eq (t : Int) (bytes : List Nat) (s : Chip) :
    util_chip_reset t (some bytes) s =
      (0, { memory := fun j =>
              if 0x200 ≤ j ∧ j < 0x200 + min bytes.length 0x1000
              then bytes.getD (j - 0x200) 0
              else if j < 0x50 then default_font.getD j 0
              else if j < 0x1000 then 0 else s.memory j
            stack := fun j => if j < 0x10 then 0 else s.stack j
            V := fun j => if j < 0x10 then 0 else s.V j
            PC := 0x200
            SP := 0
            I := 0
            delay_timer := 0
            sound_timer := 0
            display := fun i j => if i < 0x20 ∧ j < 0x40 then 0 else s.display i j
            key_state := fun j => if j < 16 then 0 else s.key_state j
            key_prev := s.key_prev
            next := (t % 256).toNat }) := by
  unfold util_chip_reset
  rw [util_chip_load_ROM_eq, util_chip_init_eq]

theorem step_SP (s : Chip) :
    (step s).SP =
      if isCall (fetch s) then (s.SP + 1) % 256
      else if isReturn (fetch s) then sub8 s.SP 1
      else s.SP :=
  util_chip_execute_SP (fetch s) s

/-- C17, as stated, fails: after a reset that loads the two-byte program 00 EE,
the first step is a return executed at SP = 0, and it leaves SP = 255. -/
theorem stack_pointer_counterexample :
    (util_chip_reset 0 (some [0x00, 0xEE]) zeroChip).1 = 0 ∧
    (util_chip_reset 0 (some [0x00, 0xEE]) zeroChip).2.SP = 0 ∧
    fetch (util_chip_reset 0 (some [0x00, 0xEE]) zeroChip).2 = 0x00EE ∧
    (step (util_chip_reset 0 (some [0x00, 0xEE]) zeroChip).2).SP = 255 ∧
    ¬ ((step (util_chip_reset 0 (some [0x00, 0xEE]) zeroChip).2).SP ≤ 15) := by
  have hf : fetch (util_chip_reset 0 (some [0x00, 0xEE]) zeroChip).2 = 0x00EE := by
    rw [util_chip_reset_eq]
    rfl
  have hsp : (step (util_chip_reset 0 (some [0x00, 0xEE]) zeroChip).2).SP = 255 := by
    rw [step_SP, hf, if_neg (by decide), if_pos (by decide), util_chip_reset_eq]
    rfl
  refine ⟨?_, ?_, hf, hsp, ?_⟩
  · rw [util_chip_reset_eq]
  · rw [util_chip_reset_eq]
  · rw [hsp]
    decide

/-- A step whose array accesses are in bounds and which is not a return at
SP = 0 keeps SP within 0..15. -/
theorem step_SP_le (s : Chip) (h : s.SP ≤ 15) (hacc : stepOK s)
    (hret : ¬ (isReturn (fetch s) ∧ s.SP = 0)) : (step s).SP ≤ 15 := by
  rw [step_SP]
  by_cases hc : isCall (fetch s)
  · rw [if_pos hc]
    have h1 := hacc.2.2.1 hc
    omega
  · rw [if_neg hc]
    by_cases hr : isReturn (fetch s)
    · rw [if_pos hr]
      have : s.SP ≠ 0 := fun e => hret ⟨hr, e⟩
      unfold sub8
      omega
    · rw [if_neg hr]
      exact h

/-- C17 (stack pointer range), amended.  After a reset that loads a program of
at most 3584 bytes, along any run of steps each of which keeps its array
accesses inside the declared bounds (so no call is executed at SP = 15) and
none of which is a return fetched at SP = 0, the stack pointer stays within
0..15 in every state. -/
theorem stack_pointer_in_range (t : Int) (bytes : List Nat) (s0 : Chip) (n : Nat)
    (hlen : bytes.length ≤ 0xE00)
    (hacc : ∀ k, k < n → stepOK (step^[k] (util_chip_reset t (some bytes) s0).2))
    (hret : ∀ k, k < n →
      ¬ (isReturn (fetch (step^[k] (util_chip_reset t (some bytes) s0).2)) ∧
        (step^[k] (util_chip_reset t (some bytes) s0).2).SP = 0)) :
    ∀ k, k ≤ n → (step^[k] (util_chip_reset t (some bytes) s0).2).SP ≤ 15 := by
  have _ := hlen
  intro k
  induction k with
  | zero =>
    intro _
    rw [util_chip_reset_eq]
    exact Nat.zero_le 15
  | succ k ih =>
    intro hk
    rw [Function.iterate_succ_apply']
    exact step_SP_le _ (ih (by omega)) (hacc k (by omega)) (hret k (by omega))

/-- Witness of the amended C17: the two-byte program 22 04 calls 0x204 at
SP = 0, inside the stack, and SP is 0 before and 1 after the step. -/
theorem stack_pointer_in_range_witness :
    ([0x22, 0x04].length ≤ 0xE00 ∧
      (∀ k, k < 1 → stepOK (step^[k] (util_chip_reset 0 (some [0x22, 0x04]) zeroChip).2)) ∧
      (∀ k, k < 1 →
        ¬ (isReturn (fetch (step^[k] (util_chip_reset 0 (some [0x22, 0x04]) zeroChip).2)) ∧
          (step^[k] (util_chip_reset 0 (some [0x22, 0x04]) zeroChip).2).SP = 0))) ∧
    (util_chip_reset 0 (some [0x22, 0x04]) zeroChip).2.SP = 0 ∧
    (step (util_chip_reset 0 (some [0x22, 0x04]) zeroChip).2).SP = 1 ∧
    ∀ k, k ≤ 1 → (step^[k] (util_chip_reset 0 (some [0x22, 0x04]) zeroChip).2).SP ≤ 15 := by
  have hf : fetch (util_chip_reset 0 (some [0x22, 0x04]) zeroChip).2 = 0x2204 := by
    rw [util_chip_reset_eq]
    rfl
  have h0 : (util_chip_reset 0 (some [0x22, 0x04]) zeroChip).2.SP = 0 := by
    rw [util_chip_reset_eq]
  have hpc : (util_chip_reset 0 (some [0x22, 0x04]) zeroChip).2.PC = 0x200 := by
    rw [util_chip_reset_eq]
  have h1 : (step (util_chip_reset 0 (some [0x22, 0x04]) zeroChip).2).SP = 1 := by
    rw [step_SP, hf, if_pos (by decide), h0]
  have hacc : ∀ k, k < 1 →
      stepOK (step^[k] (util_chip_reset 0 (some [0x22, 0x04]) zeroChip).2) := by
    intro k hk
    have hk0 : k = 0 := by omega
    subst hk0
    rw [Function.iterate_zero_apply]
    refine ⟨by rw [hpc]; decide, ?_⟩
    rw [hf]
    refine ⟨fun h => absurd h (by decide), fun _ => by rw [h0]; decide,
      fun h => absurd h (by decide), fun h => absurd h (by decide),
      fun h => absurd h (by decide), fun h => absurd h (by decide)⟩
  have hret : ∀ k, k < 1 →
      ¬ (isReturn (fetch (step^[k] (util_chip_reset 0 (some [0x22, 0x04]) zeroChip).2)) ∧
        (step^[k] (util_chip_reset 0 (some [0x22, 0x04]) zeroChip).2).SP = 0) := by
    intro k hk
    have hk0 : k = 0 := by omega
    subst hk0
    rw [Function.iterate_zero_apply, hf]
    exact fun h => absurd h.1 (by decide)
  exact ⟨⟨by decide, hacc, hret⟩, h0, h1,
    stack_pointer_in_range 0 [0x22, 0x04] zeroChip 1 (by decide) hacc hret⟩

/-! ## Reset -/

/-- C21 (reset re-zeroes the machine), evaluated on the code.  For any two
prior states and clock values, the states `util_chip_init` produces agree on
memory[0..0xFFF], V0..VF, I, PC, the 16 stack slots, SP, both timers, the
32 x 64 display and the 16 key_state entries.  They do not agree on key_prev:
`util_chip_init` leaves key_prev as it found it, so a snapshot with key 0 held
is still held after init, unlike the snapshot of the all-zero machine. -/
theorem util_chip_init_key_prev (t1 t2 : Int) (s1 s2 : Chip) :
    ((∀ i, i < 0x1000 → (util_chip_init t1 s1).memory i = (util_chip_init t2 s2).memory i) ∧
      (∀ i, i < 16 → (util_chip_init t1 s1).V i = (util_chip_init t2 s2).V i) ∧
      (util_chip_init t1 s1).I = (util_chip_init t2 s2).I ∧
      (util_chip_init t1 s1).PC = (util_chip_init t2 s2).PC ∧
      (∀ i, i < 16 → (util_chip_init t1 s1).stack i = (util_chip_init t2 s2).stack i) ∧
      (util_chip_init t1 s1).SP = (util_chip_init t2 s2).SP ∧
      (util_chip_init t1 s1).delay_timer = (util_chip_init t2 s2).delay_timer ∧
      (util_chip_init t1 s1).sound_timer = (util_chip_init t2 s2).sound_timer ∧
      (∀ r c, r < 32 → c < 64 →
        (util_chip_init t1 s1).display r c = (util_chip_init t2 s2).display r c) ∧
      (∀ i, i < 16 →
        (util_chip_init t1 s1).key_state i = (util_chip_init t2 s2).key_state i)) ∧
    (util_chip_init t1 s1).key_prev = s1.key_prev ∧
    ((util_chip_init 0 zeroChip).key_prev 0 = 0 ∧ (util_chip_init 0 staleChip).key_prev 0 = 1) := by
  rw [util_chip_init_eq t1 s1, util_chip_init_eq t2 s2, util_chip_init_eq 0 zeroChip,
    util_chip_init_eq 0 staleChip]
  refine ⟨⟨?_, ?_, rfl, rfl, ?_, rfl, rfl, rfl, ?_, ?_⟩, rfl, rfl, rfl⟩
  · intro i hi
    by_cases h : i < 0x50
    · simp only [if_pos h]
    · simp only [if_neg h, if_pos hi]
  · intro i hi
    simp only [if_pos hi]
  · intro i hi
    simp only [if_pos hi]
  · intro r c hr hc
    simp only [if_pos (And.intro hr hc)]
  · intro i hi
    simp only [if_pos hi]

/-! ## Display cells are bits -/

/-- C23 (VF as destination).  With x = F, after 8Fy4, 8Fy5, 8Fy6, 8Fy7 and 8FyE
the final VF is the flag computed from the operands before the instruction
(carry of VF + Vy, VF > Vy, bit 0 of Vy, Vy > VF, bit 7 of Vy), hence 0 or 1;
the arithmetic result does not survive in VF. -/
theorem flag_wins (s : Chip) (y : Nat) (hy : y < 16) :
    ((util_chip_execute (0x8004 + 256 * 0xF + 16 * y) s).V 0xF
        = (if s.V 0xF + s.V y > 255 then 1 else 0) ∧
      (util_chip_execute (0x8005 + 256 * 0xF + 16 * y) s).V 0xF
        = (if s.V 0xF > s.V y then 1 else 0) ∧
      (util_chip_execute (0x8006 + 256 * 0xF + 16 * y) s).V 0xF = s.V y &&& 1 ∧
      (util_chip_execute (0x8007 + 256 * 0xF + 16 * y) s).V 0xF
        = (if s.V y > s.V 0xF then 1 else 0) ∧
      (util_chip_execute (0x800E + 256 * 0xF + 16 * y) s).V 0xF = (s.V y >>> 7) &&& 1) ∧
    ((util_chip_execute (0x8004 + 256 * 0xF + 16 * y) s).V 0xF ≤ 1 ∧
      (util_chip_execute (0x8005 + 256 * 0xF + 16 * y) s).V 0xF ≤ 1 ∧
      (util_chip_execute (0x8006 + 256 * 0xF + 16 * y) s).V 0xF ≤ 1 ∧
      (util_chip_execute (0x8007 + 256 * 0xF + 16 * y) s).V 0xF ≤ 1 ∧
      (util_chip_execute (0x800E + 256 * 0xF + 16 * y) s).V 0xF ≤ 1) := by
  have h4 : (util_chip_execute (0x8004 + 256 * 0xF + 16 * y) s).V 0xF
      = (if s.V 0xF + s.V y > 255 then 1 else 0) := by
    rw [util_chip_execute_8xy4 0xF y (by decide) hy]
    simp only [ADD2, setAt_same]
  have h5 : (util_chip_execute (0x8005 + 256 * 0xF + 16 * y) s).V 0xF
      = (if s.V 0xF > s.V y then 1 else 0) := by
    rw [util_chip_execute_8xy5 0xF y (by decide) hy]
    simp only [SUB, setAt_same]
  have h6 : (util_chip_execute (0x8006 + 256 * 0xF + 16 * y) s).V 0xF = s.V y &&& 1 := by
    rw [util_chip_execute_8xy6 0xF y (by decide) hy]
    simp only [SHR, setAt_same]
    exact lsb_flag _
  have h7 : (util_chip_execute (0x8007 + 256 * 0xF + 16 * y) s).V 0xF
      = (if s.V y > s.V 0xF then 1 else 0) := by
    rw [util_chip_execute_8xy7 0xF y (by decide) hy]
    simp only [SUBN, setAt_same]
  have hE : (util_chip_execute (0x800E + 256 * 0xF + 16 * y) s).V 0xF
      = (s.V y >>> 7) &&& 1 := by
    rw [util_chip_execute_8xyE 0xF y (by decide) hy]
    simp only [SHL, setAt_same]
    exact msb_flag _
  refine ⟨⟨h4, h5, h6, h7, hE⟩, ?_, ?_, ?_, ?_, ?_⟩
  · rw [h4]
    split_ifs <;> omega
  · rw [h5]
    split_ifs <;> omega
  · rw [h6, Nat.and_one_is_mod]
    omega
  · rw [h7]
    split_ifs <;> omega
  · rw [hE, Nat.and_one_is_mod]
    omega

/-- Witness of C23: with VF = 200 and V0 = 100 the sum 8F04 leaves VF = 1, not
300 mod 256 = 44, and the difference 8F05 leaves VF = 1, not 100. -/
theorem flag_wins_witness :
    (0 < 16) ∧
    (util_chip_execute 0x8F04 (regChip 100 0 200)).V 0xF = 1 ∧
    (util_chip_execute 0x8F05 (regChip 100 0 200)).V 0xF = 1 ∧
    (util_chip_execute 0x8F06 (regChip 100 0 200)).V 0xF = 0 ∧
    (util_chip_execute 0x8F07 (regChip 100 0 200)).V 0xF = 0 ∧
    (util_chip_execute 0x8F0E (regChip 100 0 200)).V 0xF = 0 :=
  ⟨by decide, (flag_wins (regChip 100 0 200) 0 (by decide)).1⟩

/-! ## The waiting step of wait-key -/

/-- C24 (wait-key frame).  While no key 0..15 has a rising edge, executing Fx0A
returns the state it was given with Vx set to 0 and nothing else changed: PC,
the other registers, memory, I, stack, SP, timers, display, keypad arrays and
PRNG state.  The step is therefore not the identity whenever Vx was non-zero. -/
theorem wait_key_frame (s : Chip) (x : Nat) (hx : x < 16) (hpc : s.PC < 65536)
    (hno : ∀ k, k < 16 → ¬ risingEdge s k) :
    util_chip_execute (0xF00A + 256 * x) s = { s with V := setAt s.V x 0 } ∧
    (∀ i, i ≠ x → (util_chip_execute (0xF00A + 256 * x) s).V i = s.V i) ∧
    (util_chip_execute (0xF00A + 256 * x) s).V x = 0 ∧
    (s.V x ≠ 0 → util_chip_execute (0xF00A + 256 * x) s ≠ s) := by
  rw [wait_key_execute s x hx hpc hno]
  refine ⟨rfl, fun i hi => setAt_other _ _ _ _ hi, setAt_same _ _ _, ?_⟩
  intro hv he
  have h1 : ({ s with V := setAt s.V x 0 } : Chip).V x = s.V x := by rw [he]
  rw [show ({ s with V := setAt s.V x 0 } : Chip).V x = 0 from setAt_same _ _ _] at h1
  exact hv h1.symm

/-- Witness of C24: with no key held and V0 = 7, F00A clears V0 and changes
nothing else, so the state after the step differs from the state before. -/
theorem wait_key_frame_witness :
    (0 < 16 ∧ (waitChip 7 (fun _ => 0) (fun _ => 0)).PC < 65536 ∧
      ∀ k, k < 16 → ¬ risingEdge (waitChip 7 (fun _ => 0) (fun _ => 0)) k) ∧
    util_chip_execute 0xF00A (waitChip 7 (fun _ => 0) (fun _ => 0))
      = waitChip 0 (fun _ => 0) (fun _ => 0) ∧
    util_chip_execute 0xF00A (waitChip 7 (fun _ => 0) (fun _ => 0))
      ≠ waitChip 7 (fun _ => 0) (fun _ => 0) := by
  have hno : ∀ k, k < 16 → ¬ risingEdge (waitChip 7 (fun _ => 0) (fun _ => 0)) k :=
    fun k _ h => h.1 rfl
  have h := wait_key_frame (waitChip 7 (fun _ => 0) (fun _ => 0)) 0 (by decide) (by decide) hno
  refine ⟨⟨by decide, by decide, hno⟩, ?_, h.2.2.2 (by decide)⟩
  refine h.1.trans ?_
  simp only [waitChip, zeroChip, Chip.mk.injEq, true_and, and_true]
  funext j
  simp only [setAt_apply]
  split_ifs <;> rfl

/-! ## The pseudo-random generator -/

/-- Dispatch of Cxkk. -/
theorem util_chip_execute_Cxkk (x kk : Nat) (hx : x < 16) (hkk : kk < 256) (s : Chip) :
    util_chip_execute (0xC000 + 256 * x + kk) s
      = RND x kk { s with PC := (s.PC + 2) % 65536 } := by
  rw [util_chip_execute_famC _ s (by omega)]
  have h1 : (0xC000 + 256 * x + kk) / 256 % 16 = x := by omega
  have h2 : (0xC000 + 256 * x + kk) % 256 = kk := by omega
  rw [h1, h2]

/-- The generator state and Vx after `i + 1` executions of Cxkk. -/
theorem RND_iterate (x kk : Nat) (hx : x < 16) (hkk : kk < 256) (s : Chip) (i : Nat) :
    ((util_chip_execute (0xC000 + 256 * x + kk))^[i + 1] s).next
      = (s.next + 127 * (i + 1)) % 256 ∧
    ((util_chip_execute (0xC000 + 256 * x + kk))^[i + 1] s).V x
      = ((s.next + 127 * (i + 1)) % 256) &&& kk := by
  induction i with
  | zero =>
    rw [Function.iterate_one, util_chip_execute_Cxkk x kk hx hkk]
    have e : (s.next * 4097 + 127) % 256 = (s.next + 127 * (0 + 1)) % 256 := by omega
    constructor
    · simp only [RND]
      exact e
    · simp only [RND, setAt_same]
      rw [e, Nat.mod_mod]
  | succ i ih =>
    rw [Function.iterate_succ_apply', util_chip_execute_Cxkk x kk hx hkk]
    have e : (((util_chip_execute (0xC000 + 256 * x + kk))^[i + 1] s).next * 4097 + 127) % 256
        = (s.next + 127 * (i + 1 + 1)) % 256 := by
      rw [ih.1]
      omega
    constructor
    · simp only [RND]
      exact e
    · simp only [RND, setAt_same]
      rw [e, Nat.mod_mod]

/-- A byte masked with `kk` has no bit outside `kk`. -/
theorem and_mask_compl (m kk : Nat) (hkk : kk < 256) : (m &&& kk) &&& (255 ^^^ kk) = 0 := by
  apply Nat.eq_of_testBit_eq
  intro i
  rw [Nat.testBit_and, Nat.testBit_and, Nat.testBit_xor, Nat.zero_testBit]
  by_cases hb : kk.testBit i = true
  · have hi : i < 8 := by
      by_contra hge
      have h2 : kk < 2 ^ i :=
        Nat.lt_of_lt_of_le hkk (Nat.pow_le_pow_right (show 0 < 2 by decide) (show 8 ≤ i by omega))
      rw [Nat.testBit_lt_two_pow h2] at hb
      exact Bool.false_ne_true hb
    have h255 : Nat.testBit 255 i = true := by
      rw [show (255 : Nat) = 2 ^ 8 - 1 from rfl, Nat.testBit_two_pow_sub_one]
      exact decide_eq_true hi
    rw [hb, h255]
    simp
  · have hb2 : kk.testBit i = false := by
      cases h : kk.testBit i
      · rfl
      · exact absurd h hb
    rw [hb2]
    simp

/-- C25 (random).  The state update of Cxkk, next = (next * 4097 + 127) mod 256,
is next = (next + 127) mod 256 for every value of next; from any seed, among
256 consecutive executions of CxFF every byte value is stored in Vx exactly
once; and for every kk the value stored in Vx has no bit outside kk. -/
theorem random_spec (s : Chip) (x kk : Nat) (hx : x < 16) (hkk : kk < 256) :
    (util_chip_execute (0xC000 + 256 * x + kk) s).next = (s.next * 4097 + 127) % 256 ∧
    (s.next * 4097 + 127) % 256 = (s.next + 127) % 256 ∧
    (∀ v, v < 256 → ∃! i, 1 ≤ i ∧ i ≤ 256 ∧
      ((util_chip_execute (0xC000 + 256 * x + 0xFF))^[i] s).V x = v) ∧
    (util_chip_execute (0xC000 + 256 * x + kk) s).V x &&& (255 ^^^ kk) = 0 ∧
    (util_chip_execute (0xC000 + 256 * x + kk) s).V x &&& kk
      = (util_chip_execute (0xC000 + 256 * x + kk) s).V x := by
  have hrun : ∀ i, 1 ≤ i →
      ((util_chip_execute (0xC000 + 256 * x + 0xFF))^[i] s).V x = (s.next + 127 * i) % 256 := by
    intro i hi
    obtain ⟨j, rfl⟩ : ∃ j, i = j + 1 := ⟨i - 1, by omega⟩
    rw [(RND_iterate x 0xFF hx (by decide) s j).2]
    have h := Nat.and_pow_two_sub_one_eq_mod ((s.next + 127 * (j + 1)) % 256) 8
    rw [Nat.mod_mod] at h
    exact h
  refine ⟨?_, by omega, ?_, ?_, ?_⟩
  · rw [util_chip_execute_Cxkk x kk hx hkk]
    rfl
  · intro v hv
    have hex : ∃ i, 1 ≤ i ∧ i ≤ 256 ∧ (s.next + 127 * i) % 256 = v := by
      by_cases h0 : (127 * (v + 256 - s.next % 256)) % 256 = 0
      · exact ⟨256, by omega, by omega, by omega⟩
      · exact ⟨(127 * (v + 256 - s.next % 256)) % 256, by omega, by omega, by omega⟩
    obtain ⟨i, h1, h2, h3⟩ := hex
    refine ⟨i, ⟨h1, h2, by rw [hrun i h1]; exact h3⟩, ?_⟩
    rintro j ⟨k1, k2, k3⟩
    rw [hrun j k1] at k3
    omega
  · rw [util_chip_execute_Cxkk x kk hx hkk]
    simp only [RND, setAt_same]
    exact and_mask_compl _ kk hkk
  · rw [util_chip_execute_Cxkk x kk hx hkk]
    simp only [RND, setAt_same]
    rw [Nat.and_assoc, Nat.and_self]

/-- Witness of C25: from the seed 0, C0FF stores 127 and then 254 in V0, and
C00F stores 127 & 0x0F = 15. -/
theorem random_spec_witness :
    (0 < 16 ∧ 0x0F < 256) ∧
    (util_chip_execute 0xC00F (regChip 0 0 0)).next = 127 ∧
    (util_chip_execute 0xC00F (regChip 0 0 0)).V 0 &&& (255 ^^^ 0x0F) = 0 ∧
    (util_chip_execute 0xC00F (regChip 0 0 0)).V 0 &&& 0x0F
      = (util_chip_execute 0xC00F (regChip 0 0 0)).V 0 ∧
    ∃! i, 1 ≤ i ∧ i ≤ 256 ∧ ((util_chip_execute 0xC0FF)^[i] (regChip 0 0 0)).V 0 = 254 :=
  ⟨by decide,
    (random_spec (regChip 0 0 0) 0 0x0F (by decide) (by decide)).1,
    (random_spec (regChip 0 0 0) 0 0x0F (by decide) (by decide)).2.2.2.1,
    (random_spec (regChip 0 0 0) 0 0x0F (by decide) (by decide)).2.2.2.2,
    (random_spec (regChip 0 0 0) 0 0x0F (by decide) (by decide)).2.2.1 254 (by decide)⟩

end ChipEmu
